import Mathlib

/-!
The MOS 6502 core of go-nes (package cpu)

A shallow embedding of `src/cpu/bus.go`, `src/cpu/cpu.go`, `src/cpu/addr.go` and
`src/cpu/instr.go`, followed by theorems about it.

Conventions of the embedding

* Go's `uint8` and `uint16` are natural numbers; every operation that can leave the
  range in Go is followed here by an explicit `% 256` or `% 65536`.  That a state only
  holds values of its Go types is the predicate `MOS6502.WellTyped`.
* A method with a pointer receiver that mutates the processor becomes a function that
  returns the new processor; a method that also returns a `uint8` returns the pair
  (returned value, new processor).
* A slice index out of range panics in Go; such a function returns `Option`, and
  `none` stands for the panic.
* A `MOS6502 φ` is a processor whose `Bus` pointer is non-nil (every test builds
  `MOS6502{Bus: &b}`).  A struct value whose `Bus` is nil, which is what `Create6502`
  returns, is a `NilBus6502 φ`; reading memory through it panics.
* A Go function value stored in a table (`Instruction.op`, the values of
  `addrModeLookup`) acts on the processor that holds the table, which a Lean structure
  cannot express directly.  The tables therefore store handles of a type `φ`; the code
  that calls them is given the meaning of a handle as a function on processors.
-/

namespace Cpu

/-! ## bus.go -/

/-- DevBus is a simple bus that consists only of RAM: `ram [64 * 1024]uint8`. -/
structure DevBus where
  ram : Nat → Nat

/-- Read of bus.go: `if address >= 0 && address < 0xFFFF { return b.ram[address] }; return 0`. -/
def DevBus.Read (b : DevBus) (address : Nat) (_readOnly : Bool) : Nat :=
  if 0 ≤ address ∧ address < 0xFFFF then b.ram address else 0

/-- Write of bus.go: `if address >= 0 && address < 0xFFFF { b.ram[address] = data }`. -/
def DevBus.Write (b : DevBus) (address : Nat) (data : Nat) : DevBus :=
  if 0 ≤ address ∧ address < 0xFFFF then
    { ram := fun a => if a = address then data else b.ram a }
  else b

/-! ## cpu.go -/

/-- Instruction represents a single 6502 instruction; `op` is a handle for the Go
function value `func() uint8`. -/
structure Instruction (φ : Type) where
  name : String
  op : φ
  addrMode : String
  cycles : Nat

/-- MOS6502 represents the state of the CPU.  `opLookup` is the Go slice
`[]Instruction`; `addrModeLookup` is the Go map from mode name to resolver, kept as
an association list of handles. -/
structure MOS6502 (φ : Type) where
  Bus : DevBus
  A : Nat
  X : Nat
  Y : Nat
  Status : Nat
  SP : Nat
  PC : Nat
  fetched : Nat
  opLookup : List (Instruction φ)
  cycles : Nat
  absAddr : Nat
  relAddr : Nat
  opcode : Nat
  addrModeLookup : List (String × φ)

/-- Carry: `1 << iota` with iota = 0. -/
@[reducible] def C : Nat := 1 <<< 0
/-- Zero. -/
@[reducible] def Z : Nat := 1 <<< 1
/-- Disable interrupts. -/
@[reducible] def I : Nat := 1 <<< 2
/-- Decimal mode (not used). -/
@[reducible] def D : Nat := 1 <<< 3
/-- Break. -/
@[reducible] def B : Nat := 1 <<< 4
/-- Unused. -/
@[reducible] def U : Nat := 1 <<< 5
/-- Overflow. -/
@[reducible] def V : Nat := 1 <<< 6
/-- Negative. -/
@[reducible] def N : Nat := 1 <<< 7

/-- Go's bit-clear operator `x &^ y` on `uint8` operands. -/
def bitClear8 (x y : Nat) : Nat := x &&& (y ^^^ 0xFF)

/-- Go's bit-clear operator `x &^ y` on `uint16` operands. -/
def bitClear16 (x y : Nat) : Nat := x &&& (y ^^^ 0xFFFF)

variable {φ : Type}

/-- The state holds only values of its Go types: `uint8` registers and memory cells,
`uint16` addresses. -/
structure MOS6502.WellTyped (c : MOS6502 φ) : Prop where
  ram : ∀ a, c.Bus.ram a < 256
  A : c.A < 256
  X : c.X < 256
  Y : c.Y < 256
  Status : c.Status < 256
  SP : c.SP < 256
  PC : c.PC < 65536
  fetched : c.fetched < 256
  cycles : c.cycles < 256
  absAddr : c.absAddr < 65536
  relAddr : c.relAddr < 65536
  opcode : c.opcode < 256
  opCycles : ∀ i ∈ c.opLookup, i.cycles < 256

/-- The method `read`: `return c.Bus.Read(address, false)`. -/
def MOS6502.read (c : MOS6502 φ) (address : Nat) : Nat :=
  c.Bus.Read address false

/-- The method `write`: `c.Bus.Write(address, data)`. -/
def MOS6502.write (c : MOS6502 φ) (address : Nat) (data : Nat) : MOS6502 φ :=
  { c with Bus := c.Bus.Write address data }

/-- GetFlag returns the value of the specified flag: `c.Status & f`. -/
def MOS6502.GetFlag (c : MOS6502 φ) (f : Nat) : Nat :=
  c.Status &&& f

/-- SetFlag sets the given bit in the status register if the condition evaluates to
true (`c.Status |= f`), and clears the bit otherwise (`c.Status &^= f`). -/
def MOS6502.SetFlag (c : MOS6502 φ) (f : Nat) (cond : Bool) : MOS6502 φ :=
  if cond then
    { c with Status := c.Status ||| f }
  else
    { c with Status := bitClear8 c.Status f }

/-- Fetch retrieves data given an address, stores it in `fetched` and returns it as
well.  `c.opLookup[c.opcode]` panics when the opcode has no table entry. -/
def MOS6502.fetch (c : MOS6502 φ) : Option (Nat × MOS6502 φ) :=
  match c.opLookup[c.opcode]? with
  | none => none
  | some instruction =>
    let c1 : MOS6502 φ :=
      if instruction.addrMode != "IMM" then
        { c with fetched := c.read c.absAddr }
      else c
    some (c1.fetched, c1)

/-- Perform one clock cycle of computation.  `run` gives the meaning of the function
handles stored in the two tables.  `none` stands for a panic: `c.opLookup[c.opcode]` out
of range, a mode name without an entry in `addrModeLookup` (calling the nil function),
or a panic inside the called resolver or operation.  `instruction` is a copy of the
table entry, as in Go. -/
def MOS6502.clock (run : φ → MOS6502 φ → Option (Nat × MOS6502 φ)) (c : MOS6502 φ) :
    Option (MOS6502 φ) :=
  if c.cycles == 0 then
    let c1 : MOS6502 φ := { c with opcode := c.read c.PC }
    match c1.opLookup[c1.opcode]? with
    | none => none
    | some instruction =>
      let c2 : MOS6502 φ := { c1 with PC := (c1.PC + 1) % 65536 }
      let c3 := c2.SetFlag U true
      let c4 : MOS6502 φ := { c3 with cycles := instruction.cycles }
      match c4.addrModeLookup.lookup instruction.addrMode with
      | none => none
      | some mode =>
        match run mode c4 with
        | none => none
        | some (addrModeCycles, c5) =>
          match run instruction.op c5 with
          | none => none
          | some (addlOpCycles, c6) =>
            let c7 : MOS6502 φ :=
              { c6 with cycles := (c6.cycles + (addrModeCycles &&& addlOpCycles)) % 256 }
            let c8 := c7.SetFlag U true
            some { c8 with cycles := (c8.cycles + 255) % 256 }
  else
    some { c with cycles := (c.cycles + 255) % 256 }

/-- Proof auxiliary, not a function of the source: the state that a dispatch pulse of
`clock` hands to the addressing-mode resolver (cpu.go lines 83 to 91: opcode read, PC++,
Unused flag, base cycle cost).  `clock` above does not use it. -/
def beforeResolve (c : MOS6502 φ) (instruction : Instruction φ) : MOS6502 φ :=
  let c1 : MOS6502 φ := { c with opcode := c.read c.PC }
  let c2 : MOS6502 φ := { c1 with PC := (c1.PC + 1) % 65536 }
  let c3 := c2.SetFlag U true
  { c3 with cycles := instruction.cycles }

/-- Proof auxiliary, not a function of the source: what a dispatch pulse of `clock` does
after the operation has returned `addlOpCycles` in state `c6` (cpu.go lines 99 to 104:
extra cycles, Unused flag, decrement).  `clock` above does not use it. -/
def afterOp (c6 : MOS6502 φ) (addrModeCycles addlOpCycles : Nat) : MOS6502 φ :=
  let c7 : MOS6502 φ :=
    { c6 with cycles := (c6.cycles + (addrModeCycles &&& addlOpCycles)) % 256 }
  let c8 := c7.SetFlag U true
  { c8 with cycles := (c8.cycles + 255) % 256 }

/-! ## addr.go -/

/-- IMM (immediate): `c.fetched = c.A; return 0`. -/
def MOS6502.imm (c : MOS6502 φ) : Nat × MOS6502 φ :=
  (0, { c with fetched := c.A })

/-- IMP (implied): `c.absAddr = c.PC; c.PC++; return 0`. -/
def MOS6502.imp (c : MOS6502 φ) : Nat × MOS6502 φ :=
  let c1 : MOS6502 φ := { c with absAddr := c.PC }
  let c2 : MOS6502 φ := { c1 with PC := (c1.PC + 1) % 65536 }
  (0, c2)

/-- ZP0 (zero page addressing). -/
def MOS6502.zp0 (c : MOS6502 φ) : Nat × MOS6502 φ :=
  let c1 : MOS6502 φ := { c with absAddr := c.read c.PC &&& 0x00FF }
  let c2 : MOS6502 φ := { c1 with PC := (c1.PC + 1) % 65536 }
  (0, c2)

/-- ZPX (indexed zero page); the sum `c.read(c.PC) + c.X` is a `uint8` sum. -/
def MOS6502.zpX (c : MOS6502 φ) : Nat × MOS6502 φ :=
  let c1 : MOS6502 φ := { c with absAddr := ((c.read c.PC + c.X) % 256) &&& 0x00FF }
  let c2 : MOS6502 φ := { c1 with PC := (c1.PC + 1) % 65536 }
  (0, c2)

/-- ZPY. -/
def MOS6502.zpY (c : MOS6502 φ) : Nat × MOS6502 φ :=
  let c1 : MOS6502 φ := { c with absAddr := ((c.read c.PC + c.Y) % 256) &&& 0x00FF }
  let c2 : MOS6502 φ := { c1 with PC := (c1.PC + 1) % 65536 }
  (0, c2)

/-- REL (relative). -/
def MOS6502.rel (c : MOS6502 φ) : Nat × MOS6502 φ :=
  let c1 : MOS6502 φ := { c with relAddr := c.read c.PC }
  let c2 : MOS6502 φ := { c1 with PC := (c1.PC + 1) % 65536 }
  let c3 : MOS6502 φ :=
    if c2.relAddr &&& 0x80 != 0 then { c2 with relAddr := c2.relAddr ||| 0xFF00 } else c2
  (0, c3)

/-- ABS (absolute): `c.absAddr = hi << 8 | lo`. -/
def MOS6502.abs (c : MOS6502 φ) : Nat × MOS6502 φ :=
  let lo := c.read c.PC
  let c1 : MOS6502 φ := { c with PC := (c.PC + 1) % 65536 }
  let hi := c1.read c1.PC
  let c2 : MOS6502 φ := { c1 with PC := (c1.PC + 1) % 65536 }
  let c3 : MOS6502 φ := { c2 with absAddr := (hi <<< 8) % 65536 ||| lo }
  (0, c3)

/-- ABX: absolute addressing with the X register added to the address. -/
def MOS6502.abX (c : MOS6502 φ) : Nat × MOS6502 φ :=
  let lo := c.read c.PC
  let c1 : MOS6502 φ := { c with PC := (c.PC + 1) % 65536 }
  let hi := c1.read c1.PC
  let c2 : MOS6502 φ := { c1 with PC := (c1.PC + 1) % 65536 }
  let c3 : MOS6502 φ := { c2 with absAddr := (hi <<< 8) % 65536 ||| lo }
  let c4 : MOS6502 φ := { c3 with absAddr := (c3.absAddr + c3.X) % 65536 }
  if (c4.absAddr &&& 0xFF00) != (hi <<< 8) % 65536 then (1, c4) else (0, c4)

/-- ABY: absolute addressing with the Y register added to the address. -/
def MOS6502.abY (c : MOS6502 φ) : Nat × MOS6502 φ :=
  let lo := c.read c.PC
  let c1 : MOS6502 φ := { c with PC := (c.PC + 1) % 65536 }
  let hi := c1.read c1.PC
  let c2 : MOS6502 φ := { c1 with PC := (c1.PC + 1) % 65536 }
  let c3 : MOS6502 φ := { c2 with absAddr := (hi <<< 8) % 65536 ||| lo }
  let c4 : MOS6502 φ := { c3 with absAddr := (c3.absAddr + c3.Y) % 65536 }
  if (c4.absAddr &&& 0xFF00) != (hi <<< 8) % 65536 then (1, c4) else (0, c4)

/-- IND (absolute indirect addressing), with the page-wrap branch of the chip. -/
def MOS6502.ind (c : MOS6502 φ) : Nat × MOS6502 φ :=
  let lo := c.read c.PC
  let c1 : MOS6502 φ := { c with PC := (c.PC + 1) % 65536 }
  let hi := c1.read c1.PC
  let c2 : MOS6502 φ := { c1 with PC := (c1.PC + 1) % 65536 }
  let ptr := (hi <<< 8) % 65536 ||| lo
  let c3 : MOS6502 φ :=
    if lo == 0x00FF then
      { c2 with absAddr := (c2.read (ptr &&& 0xFF00) <<< 8) % 65536 ||| c2.read ptr }
    else
      { c2 with absAddr := (c2.read ((ptr + 1) % 65536) <<< 8) % 65536 ||| c2.read ptr }
  (0, c3)

/-- IZX (indexed indirect addressing). -/
def MOS6502.izX (c : MOS6502 φ) : Nat × MOS6502 φ :=
  let val := c.read c.PC
  let c1 : MOS6502 φ := { c with PC := (c.PC + 1) % 65536 }
  let ptr := ((val + c1.X) % 65536) &&& 0x00FF
  let lo := c1.read ptr
  let hi := c1.read ((ptr + 1) % 65536)
  let c2 : MOS6502 φ := { c1 with absAddr := (hi <<< 8) % 65536 ||| lo }
  (0, c2)

/-- IZY (indirect indexed addressing). -/
def MOS6502.izY (c : MOS6502 φ) : Nat × MOS6502 φ :=
  let val := c.read c.PC &&& 0x00FF
  let lo := c.read val
  let hi := c.read ((val + 1) % 65536)
  let c1 : MOS6502 φ := { c with absAddr := (hi <<< 8) % 65536 ||| lo }
  let c2 : MOS6502 φ := { c1 with absAddr := (c1.absAddr + c1.Y) % 65536 }
  if (c2.absAddr &&& 0xFF00) != (hi <<< 8) % 65536 then (1, c2) else (0, c2)

/-! ## instr.go -/

/-- ADC, add memory to accumulator with carry; the arithmetic is on `uint16`. -/
def MOS6502.adc (c : MOS6502 φ) : Option (Nat × MOS6502 φ) :=
  match c.fetch with
  | none => none
  | some (_, c0) =>
    let accum := c0.A
    let mem := c0.fetched
    let carry := c0.GetFlag C
    let res := (accum + mem + carry) % 65536
    let v := bitClear16 (accum ^^^ res) (accum ^^^ mem) &&& 0x80
    let c1 := c0.SetFlag Z (res &&& 0x00ff == 0)
    let c2 := c1.SetFlag C (decide (res > 0x00ff))
    let c3 := c2.SetFlag N (res &&& 0x80 != 0)
    let c4 := c3.SetFlag V (v != 0)
    let c5 : MOS6502 φ := { c4 with A := (res &&& 0x00FF) % 256 }
    some (1, c5)

/-- SBC, subtract memory from accumulator with borrow: ADC on the inverted operand. -/
def MOS6502.sbc (c : MOS6502 φ) : Option (Nat × MOS6502 φ) :=
  match c.fetch with
  | none => none
  | some (_, c0) =>
    let accum := c0.A
    let mem := c0.fetched ^^^ 0x00ff
    let carry := c0.GetFlag C
    let res := (accum + mem + carry) % 65536
    let v := bitClear16 (accum ^^^ res) (accum ^^^ mem) &&& 0x80
    let c1 := c0.SetFlag Z (res &&& 0x00ff == 0)
    let c2 := c1.SetFlag C (decide (res > 0x00ff))
    let c3 := c2.SetFlag N (res &&& 0x80 != 0)
    let c4 := c3.SetFlag V (v != 0)
    let c5 : MOS6502 φ := { c4 with A := (res &&& 0x00ff) % 256 }
    some (1, c5)

/-- Proof auxiliary, not a function of the source: the statements that `adc` and `sbc`
share after the operand `mem` has been chosen (lines 50 to 61 and 88 to 98 of
instr.go).  `adc` and `sbc` above do not use it; `adc_eq_addCore` and `sbc_eq_addCore`
show that they agree with it. -/
def addCore (c0 : MOS6502 φ) (mem : Nat) : MOS6502 φ :=
  let accum := c0.A
  let carry := c0.GetFlag C
  let res := (accum + mem + carry) % 65536
  let v := bitClear16 (accum ^^^ res) (accum ^^^ mem) &&& 0x80
  let c1 := c0.SetFlag Z (res &&& 0x00ff == 0)
  let c2 := c1.SetFlag C (decide (res > 0x00ff))
  let c3 := c2.SetFlag N (res &&& 0x80 != 0)
  let c4 := c3.SetFlag V (v != 0)
  { c4 with A := (res &&& 0x00FF) % 256 }

/-! ## cpu.go, continued: Create6502 -/

/-- The methods of the processor that the source stores as function values: the twelve
addressing-mode resolvers registered by `Create6502`, and the two operations of
instr.go. -/
inductive Method where
  | imp | imm | zp0 | zpX | zpY | rel | abs | abX | abY | ind | izX | izY | adc | sbc

/-- The meaning of a `Method` handle: the method it names, applied to the processor. -/
def Method.run : Method → MOS6502 Method → Option (Nat × MOS6502 Method)
  | .imp, c => some c.imp
  | .imm, c => some c.imm
  | .zp0, c => some c.zp0
  | .zpX, c => some c.zpX
  | .zpY, c => some c.zpY
  | .rel, c => some c.rel
  | .abs, c => some (MOS6502.abs c)
  | .abX, c => some c.abX
  | .abY, c => some c.abY
  | .ind, c => some c.ind
  | .izX, c => some c.izX
  | .izY, c => some c.izY
  | .adc, c => c.adc
  | .sbc, c => c.sbc

/-- A Go value of type `MOS6502` whose `Bus` pointer is nil, such as the zero value
`MOS6502{}`: every field of the struct except `Bus`.  (`MOS6502 φ` above is a processor
whose `Bus` points to a bus.) -/
structure NilBus6502 (φ : Type) where
  A : Nat
  X : Nat
  Y : Nat
  Status : Nat
  SP : Nat
  PC : Nat
  fetched : Nat
  opLookup : List (Instruction φ)
  cycles : Nat
  absAddr : Nat
  relAddr : Nat
  opcode : Nat
  addrModeLookup : List (String × φ)

/-- The assignment `c.Bus = &b`: the same processor with a bus attached. -/
def NilBus6502.attach (u : NilBus6502 φ) (b : DevBus) : MOS6502 φ :=
  { Bus := b, A := u.A, X := u.X, Y := u.Y, Status := u.Status, SP := u.SP, PC := u.PC,
    fetched := u.fetched, opLookup := u.opLookup, cycles := u.cycles, absAddr := u.absAddr,
    relAddr := u.relAddr, opcode := u.opcode, addrModeLookup := u.addrModeLookup }

/-- The method `read` when `c.Bus` is nil: `c.Bus.Read(address, false)` enters `Read`
with a nil receiver; inside the guard `address >= 0 && address < 0xFFFF` the access
`b.ram[address]` dereferences nil and panics (`none`); outside the guard `Read` returns
0 without touching the receiver. -/
def NilBus6502.read (_u : NilBus6502 φ) (address : Nat) : Option Nat :=
  if 0 ≤ address ∧ address < 0xFFFF then none else some 0

/-- SetFlag on a processor whose `Bus` is nil; it only touches `Status`. -/
def NilBus6502.SetFlag (u : NilBus6502 φ) (f : Nat) (cond : Bool) : NilBus6502 φ :=
  if cond then
    { u with Status := u.Status ||| f }
  else
    { u with Status := bitClear8 u.Status f }

/-- Fetch on a processor whose `Bus` is nil: the table lookup `c.opLookup[c.opcode]`
comes first and panics without an entry; outside immediate mode the read that follows
goes through the nil pointer. -/
def NilBus6502.fetch (u : NilBus6502 φ) : Option (Nat × NilBus6502 φ) :=
  match u.opLookup[u.opcode]? with
  | none => none
  | some instruction =>
    if instruction.addrMode != "IMM" then
      match u.read u.absAddr with
      | none => none
      | some v => some (v, { u with fetched := v })
    else some (u.fetched, u)

/-- One clock pulse on a processor whose `Bus` is nil: the statements of `clock` in the
same order, the first of which on a dispatch pulse, `c.opcode = c.read(c.PC)`, goes
through the nil pointer.  `run` gives the meaning of the function handles on such
processors. -/
def NilBus6502.clock (run : φ → NilBus6502 φ → Option (Nat × NilBus6502 φ))
    (u : NilBus6502 φ) : Option (NilBus6502 φ) :=
  if u.cycles == 0 then
    match u.read u.PC with
    | none => none
    | some opcode =>
      let u1 : NilBus6502 φ := { u with opcode := opcode }
      match u1.opLookup[u1.opcode]? with
      | none => none
      | some instruction =>
        let u2 : NilBus6502 φ := { u1 with PC := (u1.PC + 1) % 65536 }
        let u3 := u2.SetFlag U true
        let u4 : NilBus6502 φ := { u3 with cycles := instruction.cycles }
        match u4.addrModeLookup.lookup instruction.addrMode with
        | none => none
        | some mode =>
          match run mode u4 with
          | none => none
          | some (addrModeCycles, u5) =>
            match run instruction.op u5 with
            | none => none
            | some (addlOpCycles, u6) =>
              let u7 : NilBus6502 φ :=
                { u6 with cycles := (u6.cycles + (addrModeCycles &&& addlOpCycles)) % 256 }
              let u8 := u7.SetFlag U true
              some { u8 with cycles := (u8.cycles + 255) % 256 }
  else
    some { u with cycles := (u.cycles + 255) % 256 }

/-- Create6502 returns an instance of the CPU: `c := MOS6502{}` with every field at its
zero value, so `Bus` is the nil pointer and `opLookup` is the nil slice; then the address
mode lookup table is populated with the twelve resolvers. -/
def Create6502 : NilBus6502 Method :=
  { A := 0, X := 0, Y := 0, Status := 0, SP := 0, PC := 0,
    fetched := 0, opLookup := [], cycles := 0, absAddr := 0, relAddr := 0, opcode := 0,
    addrModeLookup :=
      [("IMP", .imp), ("IMM", .imm), ("ZP0", .zp0), ("ZPX", .zpX), ("ZPY", .zpY),
       ("REL", .rel), ("ABS", .abs), ("ABX", .abX), ("ABY", .abY), ("IND", .ind),
       ("IZX", .izX), ("IZY", .izY)] }

/-- The caller of the clock-pulse entry point: `n` successive calls of `clock`, as in the
loops of cpu_test.go. -/
def pulses (run : φ → MOS6502 φ → Option (Nat × MOS6502 φ)) : Nat → MOS6502 φ →
    Option (MOS6502 φ)
  | 0, c => some c
  | n + 1, c =>
    match pulses run n c with
    | none => none
    | some c1 => c1.clock run

/-! ## Test fixtures -/

/-- The bus of the tests: `DevBus{}`, all cells zero. -/
def zeroBus : DevBus := { ram := fun _ => 0 }

/-- The processor of instr_test.go: `MOS6502{Bus: &b}` with the one-entry opcode table
whose addressing mode is IMM. -/
def immCpu (a m status : Nat) : MOS6502 Unit :=
  { Bus := zeroBus, A := a, X := 0, Y := 0, Status := status, SP := 0, PC := 0,
    fetched := m,
    opLookup := [{ name := "ADC", op := (), addrMode := "IMM", cycles := 1 }],
    cycles := 0, absAddr := 0, relAddr := 0, opcode := 0, addrModeLookup := [] }

/-- The processor of addr_test.go: `MOS6502{Bus: &b}` over a given RAM content, with
chosen PC, X and Y. -/
def memCpu (ram : Nat → Nat) (pc x y : Nat) : MOS6502 Unit :=
  { Bus := { ram := ram }, A := 0, X := x, Y := y, Status := 0, SP := 0, PC := pc,
    fetched := 0, opLookup := [], cycles := 0, absAddr := 0, relAddr := 0, opcode := 0,
    addrModeLookup := [] }

/-- The memory of TestAbsIndex: bytes FE CA at addresses 0 and 1. -/
def absIndexRam : Nat → Nat :=
  fun a => if a = 0 then 0xFE else if a = 1 then 0xCA else 0

/-- The memory of TestIndirectBug: pointer bytes FF CA at addresses 0 and 1,
`ram[0xCAFF] = 0xEF`, `ram[0xCA00] = 0xBE`; in addition `ram[0xCB00] = 0x77`, the cell
a read without the page wrap would reach. -/
def indBugRam : Nat → Nat :=
  fun a => if a = 0 then 0xFF else if a = 1 then 0xCA else if a = 0xCAFF then 0xEF
    else if a = 0xCA00 then 0xBE else if a = 0xCB00 then 0x77 else 0

/-- A memory whose zero-page pointer sits at 0xFF: the operand byte at 0x0200 is 0xFF,
`ram[0x00FF] = 0x34`, `ram[0x0000] = 0x12`, `ram[0x0100] = 0x56`. -/
def zpEdgeRam : Nat → Nat :=
  fun a => if a = 0x0200 then 0xFF else if a = 0x00FF then 0x34 else if a = 0x0000 then 0x12
    else if a = 0x0100 then 0x56 else 0

/-- The memory of TestIndirectIndex: operand byte 0x10 at 0x0100, pointer bytes FE CA at
0x10 and 0x11. -/
def indirectIndexRam : Nat → Nat :=
  fun a => if a = 0x0100 then 0x10 else if a = 0x0010 then 0xFE else if a = 0x0011 then 0xCA
    else 0

/-- A processor over `zpEdgeRam` with PC = 0x0200, A = 0x42, X = 0 and Y = 0. -/
def zpEdgeCpu : MOS6502 Unit :=
  { memCpu zpEdgeRam 0x0200 0 0 with A := 0x42 }

/-- The processor of TestIndirectIndex: PC = 0x0100 and Y = 0x10 over
`indirectIndexRam`. -/
def indirectIndexCpu : MOS6502 Unit :=
  memCpu indirectIndexRam 0x0100 0 0x10

/-- The function values of cpu_test.go: `ret n` is `func(c *MOS6502) uint8 { return n }`
and `setA a n` is `func() uint8 { c.A = a; return n }`. -/
inductive TestFn where
  | ret (n : Nat)
  | setA (a n : Nat)
  | setStatus (s n : Nat)

/-- The meaning of a `TestFn` handle; `setStatus s n` is an operation that overwrites
the status register, `func() uint8 { c.Status = s; return n }`. -/
def TestFn.run : TestFn → MOS6502 TestFn → Option (Nat × MOS6502 TestFn)
  | .ret n, c => some (n, c)
  | .setA a n, c => some (n, { c with A := a })
  | .setStatus s n, c => some (n, { c with Status := s })

/-- The entry of the opcode table of TestCycle: name "test", base cost `cycles`, an
operation that sets A to 0xDE and returns `b`. -/
def testInstruction (cycles b : Nat) : Instruction TestFn :=
  { name := "test", op := .setA 0xDE b, addrMode := "testAddrMode", cycles := cycles }

/-- The processor of TestCycle and TestCycleExtraCycles: one instruction "test" with
base cost `cycles`, whose resolver returns `a` and whose operation sets A to 0xDE and
returns `b`; memory is all zero, so the opcode read at PC = 0 is 0. -/
def cycleCpu (cycles a b : Nat) : MOS6502 TestFn :=
  { Bus := zeroBus, A := 0, X := 0, Y := 0, Status := 0, SP := 0, PC := 0, fetched := 0,
    opLookup := [testInstruction cycles b],
    cycles := 0, absAddr := 0, relAddr := 0, opcode := 0,
    addrModeLookup := [("testAddrMode", .ret a)] }

/-- The memory of TestRel: the offset byte `b` at address 0, all other cells 0. -/
def relRam (b : Nat) : Nat → Nat :=
  fun a => if a = 0 then b else 0

/-- A processor whose single instruction clears the whole status register: base cost 2,
resolver returning 0, operation `c.Status = 0` returning 0. -/
def clearStatusCpu : MOS6502 TestFn :=
  { cycleCpu 2 0 0 with
    opLookup := [{ name := "clr", op := .setStatus 0 0, addrMode := "testAddrMode",
                   cycles := 2 }] }

/-- The processor of Create6502 once a caller has attached a bus (`c.Bus = &b`, here
the all-zero bus of the tests) and installed a full opcode table (`c.opLookup = ...`):
256 entries, here all "ADC" in zero-page mode with base cost 3. -/
def fullTableCpu : MOS6502 Method :=
  { Create6502.attach zeroBus with
    opLookup := List.replicate 256
      { name := "ADC", op := .adc, addrMode := "ZP0", cycles := 3 } }

/-- The value of Create6502 with the same full opcode table installed but no bus
attached: `Bus` is still nil. -/
def fullTableNoBus : NilBus6502 Method :=
  { Create6502 with
    opLookup := List.replicate 256
      { name := "ADC", op := .adc, addrMode := "ZP0", cycles := 3 } }

end Cpu

/-! ## Arithmetic of the bitwise operators -/

namespace Cpu

variable {φ : Type}

theorem and_FF (x : Nat) : x &&& 0xFF = x % 256 :=
  Nat.and_pow_two_sub_one_eq_mod x 8

theorem and_one (x : Nat) : x &&& 1 = x % 2 :=
  Nat.and_pow_two_sub_one_eq_mod x 1

theorem testBit_eq_div (x i : Nat) : x.testBit i = decide (x / 2 ^ i % 2 = 1) :=
  Nat.testBit_to_div_mod

theorem and_two_pow_ne_zero (x i : Nat) : x &&& 2 ^ i ≠ 0 ↔ x.testBit i = true := by
  rw [Nat.and_two_pow]
  cases h : x.testBit i <;> simp

theorem and_80_ne_zero (x : Nat) : x &&& 0x80 ≠ 0 ↔ x / 128 % 2 = 1 := by
  have h := and_two_pow_ne_zero x 7
  rw [testBit_eq_div] at h
  simpa using h

theorem shl8_or (hi lo : Nat) (h : lo < 256) : hi <<< 8 ||| lo = hi * 256 + lo := by
  rw [Nat.shiftLeft_eq, Nat.mul_comm]
  exact (@Nat.mul_add_lt_is_or 8 lo h hi).symm

theorem testBit_of_lt_256 (x i : Nat) (hx : x < 256) (hi : 8 ≤ i) : x.testBit i = false := by
  apply Nat.testBit_lt_two_pow
  calc x < 2 ^ 8 := by simpa using hx
    _ ≤ 2 ^ i := Nat.pow_le_pow_right (by norm_num) hi

theorem xor_FF (m : Nat) (h : m < 256) : m ^^^ 0xFF = 255 - m := by
  apply Nat.eq_of_testBit_eq
  intro i
  have h2 : 255 - m = 2 ^ 8 - (m + 1) := by omega
  have h3 : (0xFF : Nat) = 2 ^ 8 - 1 := by decide
  rw [h2, Nat.testBit_two_pow_sub_succ (by simpa using h), Nat.testBit_xor, h3,
    Nat.testBit_two_pow_sub_one]
  by_cases hi : i < 8
  · simp [hi]
  · simp [hi, testBit_of_lt_256 m i h (by omega)]

theorem and_FF00 (x : Nat) : x &&& 0xFF00 = x / 256 % 256 * 256 := by
  apply Nat.eq_of_testBit_eq
  intro i
  have h3 : (0xFF00 : Nat) = (2 ^ 8 - 1) <<< 8 := by decide
  have h4 : x / 256 % 256 * 256 = ((x >>> 8) % 2 ^ 8) <<< 8 := by
    rw [Nat.shiftLeft_eq, Nat.shiftRight_eq_div_pow]; norm_num
  rw [Nat.testBit_and, h3, Nat.testBit_shiftLeft, Nat.testBit_two_pow_sub_one, h4,
    Nat.testBit_shiftLeft, Nat.testBit_mod_two_pow, Nat.testBit_shiftRight]
  by_cases h8 : 8 ≤ i
  · have : 8 + (i - 8) = i := by omega
    simp [h8, this, Bool.and_comm]
  · simp [h8]

/-! ## Flags -/

theorem testBit_or_two_pow (s i j : Nat) :
    (s ||| 2 ^ i).testBit j = (s.testBit j || decide (i = j)) := by
  rw [Nat.testBit_or, Nat.testBit_two_pow]

theorem testBit_bitClear8 (s i j : Nat) (hs : s < 256) (hi : i < 8) :
    (bitClear8 s (2 ^ i)).testBit j = (s.testBit j && !decide (i = j)) := by
  have h3 : (0xFF : Nat) = 2 ^ 8 - 1 := by decide
  unfold bitClear8
  rw [Nat.testBit_and, Nat.testBit_xor, Nat.testBit_two_pow, h3, Nat.testBit_two_pow_sub_one]
  by_cases hj : j < 8
  · simp [hj]
  · have hne : ¬ i = j := by omega
    simp [hj, hne, testBit_of_lt_256 s j hs (by omega)]

theorem bitClear8_lt (s f : Nat) (hs : s < 256) : bitClear8 s f < 256 :=
  Nat.lt_of_le_of_lt Nat.and_le_left hs

theorem or_lt_256 (s f : Nat) (hs : s < 256) (hf : f < 256) : s ||| f < 256 :=
  @Nat.or_lt_two_pow s f 8 hs hf

theorem SetFlag_Status_lt (c : MOS6502 φ) (f : Nat) (b : Bool) (hs : c.Status < 256)
    (hf : f < 256) : (c.SetFlag f b).Status < 256 := by
  unfold MOS6502.SetFlag
  split
  · exact or_lt_256 _ _ hs hf
  · exact bitClear8_lt _ _ hs

theorem SetFlag_testBit (c : MOS6502 φ) (i j : Nat) (b : Bool) (hs : c.Status < 256)
    (hi : i < 8) :
    (c.SetFlag (2 ^ i) b).Status.testBit j = if i = j then b else c.Status.testBit j := by
  unfold MOS6502.SetFlag
  cases b
  · simp only [Bool.false_eq_true, if_false]
    rw [testBit_bitClear8 _ _ _ hs hi]
    by_cases h : i = j <;> simp [h]
  · simp only [if_true]
    rw [testBit_or_two_pow]
    by_cases h : i = j <;> simp [h]

theorem GetFlag_ne_zero (c : MOS6502 φ) (i : Nat) :
    c.GetFlag (2 ^ i) ≠ 0 ↔ c.Status.testBit i = true :=
  and_two_pow_ne_zero c.Status i

end Cpu

/-! ## Operand fetch and the four flag updates of ADC and SBC -/

namespace Cpu

variable {φ : Type}

theorem DevBus_Read_lt (b : DevBus) (hb : ∀ a, b.ram a < 256) (a : Nat) (ro : Bool) :
    b.Read a ro < 256 := by
  unfold DevBus.Read
  split
  · exact hb a
  · decide

theorem read_lt (c : MOS6502 φ) (hc : c.WellTyped) (a : Nat) : c.read a < 256 :=
  DevBus_Read_lt c.Bus hc.ram a false

/-- When the opcode has a table entry, fetch returns an operand and changes at most
the `fetched` field, which then holds the operand. -/
theorem fetch_of_entry (c : MOS6502 φ) (h : c.opcode < c.opLookup.length) :
    ∃ M, c.fetch = some (M, { c with fetched := M }) ∧
      (M = c.fetched ∨ M = c.read c.absAddr) := by
  unfold MOS6502.fetch
  rw [List.getElem?_eq_getElem h]
  by_cases hm : (c.opLookup[c.opcode].addrMode != "IMM") = true
  · exact ⟨c.read c.absAddr, by simp [hm], Or.inr rfl⟩
  · exact ⟨c.fetched, by simp [hm], Or.inl rfl⟩

theorem fetch_operand_lt (c : MOS6502 φ) (hc : c.WellTyped) (M : Nat) (c0 : MOS6502 φ)
    (hf : c.fetch = some (M, c0)) : M < 256 ∧ c0 = { c with fetched := M } := by
  unfold MOS6502.fetch at hf
  split at hf
  · simp at hf
  · rename_i instr _
    by_cases hm : (instr.addrMode != "IMM") = true
    · simp only [hm, if_true, Option.some.injEq, Prod.mk.injEq] at hf
      obtain ⟨h1, h2⟩ := hf
      subst h1
      exact ⟨read_lt c hc _, h2.symm⟩
    · simp only [hm, Option.some.injEq, Prod.mk.injEq] at hf
      obtain ⟨h1, h2⟩ := hf
      subst h1
      exact ⟨hc.fetched, by rw [← h2]; simp⟩

theorem SetFlag_A (c : MOS6502 φ) (f : Nat) (b : Bool) : (c.SetFlag f b).A = c.A := by
  unfold MOS6502.SetFlag; split <;> rfl

theorem flags4_testBit (c0 : MOS6502 φ) (hs : c0.Status < 256) (bz bc bn bv : Bool)
    (j : Nat) :
    ((((c0.SetFlag Z bz).SetFlag C bc).SetFlag N bn).SetFlag V bv).Status.testBit j =
      if 6 = j then bv else if 7 = j then bn else if 0 = j then bc
      else if 1 = j then bz else c0.Status.testBit j := by
  have hZ : Z = 2 ^ 1 := rfl
  have hC : C = 2 ^ 0 := rfl
  have hN : N = 2 ^ 7 := rfl
  have hV : V = 2 ^ 6 := rfl
  have h1 := SetFlag_Status_lt c0 Z bz hs (by decide)
  have h2 := SetFlag_Status_lt _ C bc h1 (by decide)
  have h3 := SetFlag_Status_lt _ N bn h2 (by decide)
  rw [hV, SetFlag_testBit _ 6 j bv h3 (by decide), hN,
    SetFlag_testBit _ 7 j bn h2 (by decide), hC,
    SetFlag_testBit _ 0 j bc h1 (by decide), hZ,
    SetFlag_testBit _ 1 j bz hs (by decide)]

end Cpu

/-! ## ADC and SBC -/

namespace Cpu

variable {φ : Type}

theorem adc_eq_addCore (c : MOS6502 φ) (M : Nat) (c0 : MOS6502 φ)
    (hf : c.fetch = some (M, c0)) : c.adc = some (1, addCore c0 c0.fetched) := by
  unfold MOS6502.adc
  rw [hf]
  rfl

theorem sbc_eq_addCore (c : MOS6502 φ) (M : Nat) (c0 : MOS6502 φ)
    (hf : c.fetch = some (M, c0)) :
    c.sbc = some (1, addCore c0 (c0.fetched ^^^ 0x00ff)) := by
  unfold MOS6502.sbc
  rw [hf]
  rfl

theorem GetFlag_C (c : MOS6502 φ) : c.GetFlag C = c.Status % 2 :=
  and_one c.Status

theorem addCore_A (c0 : MOS6502 φ) (mem : Nat) :
    (addCore c0 mem).A = (c0.A + mem + c0.GetFlag C) % 256 := by
  have hc := GetFlag_C c0
  have hlt : c0.Status % 2 < 2 := Nat.mod_lt _ (by decide)
  simp only [addCore, and_FF]
  omega

theorem addCore_testBit (c0 : MOS6502 φ) (mem : Nat) (hs : c0.Status < 256) (j : Nat) :
    (addCore c0 mem).Status.testBit j =
      if 6 = j then
        (bitClear16 (c0.A ^^^ (c0.A + mem + c0.GetFlag C) % 65536) (c0.A ^^^ mem)
          &&& 0x80 != 0)
      else if 7 = j then ((c0.A + mem + c0.GetFlag C) % 65536 &&& 0x80 != 0)
      else if 0 = j then decide ((c0.A + mem + c0.GetFlag C) % 65536 > 0x00ff)
      else if 1 = j then ((c0.A + mem + c0.GetFlag C) % 65536 &&& 0x00ff == 0)
      else c0.Status.testBit j := by
  simp only [addCore]
  rw [flags4_testBit c0 hs]

end Cpu

namespace Cpu

variable {φ : Type}

theorem GetFlag_C_iff (c : MOS6502 φ) : c.GetFlag C ≠ 0 ↔ c.Status.testBit 0 = true :=
  GetFlag_ne_zero c 0

theorem GetFlag_Z_iff (c : MOS6502 φ) : c.GetFlag Z ≠ 0 ↔ c.Status.testBit 1 = true :=
  GetFlag_ne_zero c 1

theorem GetFlag_V_iff (c : MOS6502 φ) : c.GetFlag V ≠ 0 ↔ c.Status.testBit 6 = true :=
  GetFlag_ne_zero c 6

theorem GetFlag_N_iff (c : MOS6502 φ) : c.GetFlag N ≠ 0 ↔ c.Status.testBit 7 = true :=
  GetFlag_ne_zero c 7

theorem addCore_flagC (c0 : MOS6502 φ) (mem : Nat) (ha : c0.A < 256) (hm : mem < 256)
    (hs : c0.Status < 256) :
    (addCore c0 mem).GetFlag C ≠ 0 ↔ c0.A + mem + c0.GetFlag C > 255 := by
  have hc := GetFlag_C c0
  have hlt : c0.Status % 2 < 2 := Nat.mod_lt _ (by decide)
  rw [GetFlag_C_iff,
    addCore_testBit c0 mem hs 0]
  simp only [show ¬ (6 = 0) by decide, show ¬ (7 = 0) by decide, if_false, if_true,
    decide_eq_true_eq]
  omega

theorem addCore_flagZ (c0 : MOS6502 φ) (mem : Nat) (hs : c0.Status < 256) :
    (addCore c0 mem).GetFlag Z ≠ 0 ↔ (addCore c0 mem).A = 0 := by
  rw [GetFlag_Z_iff,
    addCore_testBit c0 mem hs 1, addCore_A]
  simp only [show ¬ (6 = 1) by decide, show ¬ (7 = 1) by decide, show ¬ (0 = 1) by decide,
    if_false, if_true, and_FF, beq_iff_eq]
  omega

theorem addCore_flagN (c0 : MOS6502 φ) (mem : Nat) (hs : c0.Status < 256) :
    (addCore c0 mem).GetFlag N ≠ 0 ↔ (addCore c0 mem).A / 128 % 2 = 1 := by
  rw [GetFlag_N_iff,
    addCore_testBit c0 mem hs 7, addCore_A]
  simp only [show ¬ (6 = 7) by decide, if_false, if_true, bne_iff_ne]
  rw [and_80_ne_zero]
  omega

end Cpu

namespace Cpu

variable {φ : Type}

theorem bitClear16_and_80 (x y : Nat) :
    bitClear16 x y &&& 0x80 ≠ 0 ↔ (x / 128 % 2 = 1 ∧ ¬ y / 128 % 2 = 1) := by
  have h7 : (0x80 : Nat) = 2 ^ 7 := by decide
  have hF : Nat.testBit 0xFFFF 7 = true := by decide
  rw [h7, and_two_pow_ne_zero]
  unfold bitClear16
  rw [Nat.testBit_and, Nat.testBit_xor, hF, testBit_eq_div, testBit_eq_div]
  simp

theorem xor_bit7 (x y : Nat) :
    (x ^^^ y) / 128 % 2 = 1 ↔ ¬ (x / 128 % 2 = y / 128 % 2) := by
  have h := Nat.testBit_xor x y 7
  rw [testBit_eq_div, testBit_eq_div, testBit_eq_div] at h
  have hx : x / 128 % 2 < 2 := Nat.mod_lt _ (by decide)
  have hy : y / 128 % 2 < 2 := Nat.mod_lt _ (by decide)
  have hz : (x ^^^ y) / 128 % 2 < 2 := Nat.mod_lt _ (by decide)
  simp only [Nat.reducePow] at h
  by_cases h1 : x / 128 % 2 = 1 <;> by_cases h2 : y / 128 % 2 = 1 <;>
    by_cases h3 : (x ^^^ y) / 128 % 2 = 1 <;> simp [h1, h2, h3] at h ⊢ <;> omega

theorem addCore_flagV (c0 : MOS6502 φ) (mem : Nat) (hs : c0.Status < 256) :
    (addCore c0 mem).GetFlag V ≠ 0 ↔
      (c0.A / 128 % 2 = mem / 128 % 2 ∧
        ¬ (addCore c0 mem).A / 128 % 2 = c0.A / 128 % 2) := by
  rw [GetFlag_V_iff, addCore_testBit c0 mem hs 6, addCore_A]
  simp only [if_true, bne_iff_ne]
  rw [bitClear16_and_80, xor_bit7, xor_bit7]
  have e : (c0.A + mem + c0.GetFlag C) % 65536 / 128 % 2
      = (c0.A + mem + c0.GetFlag C) % 256 / 128 % 2 := by omega
  rw [e]
  constructor
  · rintro ⟨h1, h2⟩
    exact ⟨not_not.mp h2, fun h => h1 h.symm⟩
  · rintro ⟨h1, h2⟩
    exact ⟨fun h => h2 h.symm, not_not.mpr h1⟩

end Cpu

/-! ## The arithmetic instructions: claims -/

namespace Cpu

variable {φ : Type}

theorem immCpu_wellTyped (a m s : Nat) (ha : a < 256) (hm : m < 256) (hs : s < 256) :
    (immCpu a m s).WellTyped where
  ram := fun _ => by simp [immCpu, zeroBus]
  A := ha
  X := by simp [immCpu]
  Y := by simp [immCpu]
  Status := hs
  SP := by simp [immCpu]
  PC := by simp [immCpu]
  fetched := hm
  cycles := by simp [immCpu]
  absAddr := by simp [immCpu]
  relAddr := by simp [immCpu]
  opcode := by simp [immCpu]
  opCycles := by simp [immCpu]

theorem fetch_result (c : MOS6502 φ) (M : Nat) (c0 : MOS6502 φ)
    (hf : c.fetch = some (M, c0)) : c0 = { c with fetched := M } := by
  unfold MOS6502.fetch at hf
  split at hf
  · simp at hf
  · rename_i instr _
    by_cases hm : (instr.addrMode != "IMM") = true
    · simp only [hm, if_true, Option.some.injEq, Prod.mk.injEq] at hf
      obtain ⟨h1, h2⟩ := hf
      subst h1
      exact h2.symm
    · simp only [hm, Option.some.injEq, Prod.mk.injEq] at hf
      obtain ⟨h1, h2⟩ := hf
      subst h1
      rw [← h2]; simp

/-- C1: ADC postcondition.  For every well-typed processor state whose current opcode
has a table entry, fetch returns an operand M, the incoming Carry flag c is 0 or 1, and
adc returns (with value 1) a state in which the accumulator is (A + M + c) mod 256, the
Carry flag is set iff A + M + c > 255, the Zero flag is set iff the new accumulator is 0,
and the Negative flag is set iff bit 7 of the new accumulator is 1. -/
theorem adc_postcondition (c : MOS6502 φ) (hc : c.WellTyped)
    (h : c.opcode < c.opLookup.length) :
    ∃ M c0 c', c.fetch = some (M, c0) ∧ c.adc = some (1, c') ∧
      (c.GetFlag C = 0 ∨ c.GetFlag C = 1) ∧
      c'.A = (c.A + M + c.GetFlag C) % 256 ∧
      (c'.GetFlag C ≠ 0 ↔ c.A + M + c.GetFlag C > 255) ∧
      (c'.GetFlag Z ≠ 0 ↔ c'.A = 0) ∧
      (c'.GetFlag N ≠ 0 ↔ c'.A / 128 % 2 = 1) := by
  obtain ⟨M, hf, _⟩ := fetch_of_entry c h
  have hM := (fetch_operand_lt c hc M _ hf).1
  refine ⟨M, _, _, hf, adc_eq_addCore c M _ hf, ?_, ?_, ?_, ?_, ?_⟩
  · have := GetFlag_C c
    omega
  · exact addCore_A _ M
  · exact addCore_flagC _ M hc.A hM hc.Status
  · exact addCore_flagZ _ M hc.Status
  · exact addCore_flagN _ M hc.Status

/-- Witness for C1 on the test vector "carry": A = 250, M = 10, Carry-in 0 gives A = 4
and status 0b00000001 (only Carry set). -/
theorem adc_postcondition_witness :
    (immCpu 250 10 0).WellTyped ∧
    (immCpu 250 10 0).opcode < (immCpu 250 10 0).opLookup.length ∧
    ((immCpu 250 10 0).adc.map fun p => (p.1, p.2.A, p.2.Status)) = some (1, 4, 1) ∧
    ∃ M c0 c', (immCpu 250 10 0).fetch = some (M, c0) ∧
      (immCpu 250 10 0).adc = some (1, c') ∧
      ((immCpu 250 10 0).GetFlag C = 0 ∨ (immCpu 250 10 0).GetFlag C = 1) ∧
      c'.A = ((immCpu 250 10 0).A + M + (immCpu 250 10 0).GetFlag C) % 256 ∧
      (c'.GetFlag C ≠ 0 ↔ (immCpu 250 10 0).A + M + (immCpu 250 10 0).GetFlag C > 255) ∧
      (c'.GetFlag Z ≠ 0 ↔ c'.A = 0) ∧
      (c'.GetFlag N ≠ 0 ↔ c'.A / 128 % 2 = 1) :=
  ⟨immCpu_wellTyped 250 10 0 (by decide) (by decide) (by decide), by decide, by decide,
    adc_postcondition (immCpu 250 10 0)
      (immCpu_wellTyped 250 10 0 (by decide) (by decide) (by decide)) (by decide)⟩

/-- C2: ADC overflow flag.  After adc the Overflow flag is set if and only if bit 7 of
A equals bit 7 of the operand M and bit 7 of the 8-bit result differs from bit 7 of A. -/
theorem adc_overflow (c : MOS6502 φ) (hc : c.WellTyped)
    (h : c.opcode < c.opLookup.length) :
    ∃ M c0 c', c.fetch = some (M, c0) ∧ c.adc = some (1, c') ∧
      (c'.GetFlag V ≠ 0 ↔
        (c.A / 128 % 2 = M / 128 % 2 ∧ ¬ c'.A / 128 % 2 = c.A / 128 % 2)) := by
  obtain ⟨M, hf, _⟩ := fetch_of_entry c h
  exact ⟨M, _, _, hf, adc_eq_addCore c M _ hf, addCore_flagV _ M hc.Status⟩

/-- Witness for C2 on the test vector "overflow/negative": A = 127, M = 10 gives
A = 137 and status 0b11000000 (Overflow and Negative set). -/
theorem adc_overflow_witness :
    (immCpu 127 10 0).WellTyped ∧
    (immCpu 127 10 0).opcode < (immCpu 127 10 0).opLookup.length ∧
    ((immCpu 127 10 0).adc.map fun p => (p.1, p.2.A, p.2.Status)) = some (1, 137, 192) ∧
    ∃ M c0 c', (immCpu 127 10 0).fetch = some (M, c0) ∧
      (immCpu 127 10 0).adc = some (1, c') ∧
      (c'.GetFlag V ≠ 0 ↔
        ((immCpu 127 10 0).A / 128 % 2 = M / 128 % 2 ∧
          ¬ c'.A / 128 % 2 = (immCpu 127 10 0).A / 128 % 2)) :=
  ⟨immCpu_wellTyped 127 10 0 (by decide) (by decide) (by decide), by decide, by decide,
    adc_overflow (immCpu 127 10 0)
      (immCpu_wellTyped 127 10 0 (by decide) (by decide) (by decide)) (by decide)⟩

end Cpu

namespace Cpu

variable {φ : Type}

theorem SetFlag_Status_congr (c d : MOS6502 φ) (f : Nat) (b : Bool)
    (h : c.Status = d.Status) : (c.SetFlag f b).Status = (d.SetFlag f b).Status := by
  unfold MOS6502.SetFlag
  cases b <;> simp [h]

theorem addCore_congr (c0 d0 : MOS6502 φ) (mem : Nat) (hA : c0.A = d0.A)
    (hS : c0.Status = d0.Status) :
    (addCore c0 mem).A = (addCore d0 mem).A ∧
      (addCore c0 mem).Status = (addCore d0 mem).Status := by
  constructor
  · rw [addCore_A, addCore_A, hA, MOS6502.GetFlag, MOS6502.GetFlag, hS]
  · simp only [addCore, MOS6502.GetFlag, hA, hS]
    exact SetFlag_Status_congr _ _ _ _ (SetFlag_Status_congr _ _ _ _
      (SetFlag_Status_congr _ _ _ _ (SetFlag_Status_congr _ _ _ _ hS)))

/-- C3: SBC is ADC on the complemented operand.  If sbc runs in a state whose fetch
returns M, and adc runs in a state with the same accumulator and the same status
register whose fetch returns M XOR 0xFF, then both return 1 and end with the same
accumulator and the same status register (every bit of it). -/
theorem sbc_eq_adc_complement (c d : MOS6502 φ) (M : Nat) (c0 d0 : MOS6502 φ)
    (hfc : c.fetch = some (M, c0)) (hfd : d.fetch = some (M ^^^ 0xFF, d0))
    (hA : c.A = d.A) (hS : c.Status = d.Status) :
    ∃ c' d', c.sbc = some (1, c') ∧ d.adc = some (1, d') ∧
      c'.A = d'.A ∧ c'.Status = d'.Status := by
  have hc0 := fetch_result c M c0 hfc
  have hd0 := fetch_result d _ d0 hfd
  refine ⟨_, _, sbc_eq_addCore c M c0 hfc, adc_eq_addCore d _ d0 hfd, ?_⟩
  have e1 : c0.fetched = M := by rw [hc0]
  have e2 : d0.fetched = M ^^^ 0xFF := by rw [hd0]
  have e3 : c0.A = d0.A := by rw [hc0, hd0]; exact hA
  have e4 : c0.Status = d0.Status := by rw [hc0, hd0]; exact hS
  rw [e1, e2]
  exact addCore_congr c0 d0 _ e3 e4

/-- Witness for C3: sbc from A = 5, M = 10, Carry set, against adc from A = 5 with
operand 10 XOR 0xFF = 245, Carry set. -/
theorem sbc_eq_adc_complement_witness :
    (immCpu 5 10 1).fetch = some (10, immCpu 5 10 1) ∧
    (immCpu 5 245 1).fetch = some (10 ^^^ 0xFF, immCpu 5 245 1) ∧
    ∃ c' d', (immCpu 5 10 1).sbc = some (1, c') ∧ (immCpu 5 245 1).adc = some (1, d') ∧
      c'.A = d'.A ∧ c'.Status = d'.Status :=
  ⟨rfl, rfl, sbc_eq_adc_complement (immCpu 5 10 1) (immCpu 5 245 1) 10 _ _ rfl rfl rfl rfl⟩

/-- C4: SBC computes subtraction with borrow.  With c the incoming Carry (0 or 1) and
borrow B = 1 - c, after sbc the accumulator is (A - M - B) mod 256 (integer
subtraction) and the Carry flag is set if and only if A >= M + B. -/
theorem sbc_borrow (c : MOS6502 φ) (hc : c.WellTyped)
    (h : c.opcode < c.opLookup.length) :
    ∃ M c0 c', c.fetch = some (M, c0) ∧ c.sbc = some (1, c') ∧
      (c.GetFlag C = 0 ∨ c.GetFlag C = 1) ∧
      (c'.A : Int) = ((c.A : Int) - (M : Int) - (1 - (c.GetFlag C : Int))) % 256 ∧
      (c'.GetFlag C ≠ 0 ↔ c.A ≥ M + (1 - c.GetFlag C)) := by
  obtain ⟨M, hf, _⟩ := fetch_of_entry c h
  have hM := (fetch_operand_lt c hc M _ hf).1
  have hx := xor_FF M hM
  have hg := GetFlag_C c
  have hA := hc.A
  have e0 : (0x00ff : Nat) = 0xFF := rfl
  have hsbc := sbc_eq_addCore c M _ hf
  simp only [e0, hx] at hsbc
  refine ⟨M, _, _, hf, hsbc, by omega, ?_, ?_⟩
  · rw [addCore_A]
    simp only []
    have hg2 : MOS6502.GetFlag { c with fetched := M } C = c.GetFlag C := rfl
    rw [hg2]
    omega
  · have hC := addCore_flagC { c with fetched := M } (255 - M) hc.A (by omega) hc.Status
    rw [hC]
    have hg2 : MOS6502.GetFlag { c with fetched := M } C = c.GetFlag C := rfl
    rw [hg2]
    simp only []
    omega

/-- Witness for C4 on the test vectors "unsigned borrow" (A = 5, M = 10, Carry-in 1
gives A = 251, status 0b10000000) and "zero" (A = 5, M = 5, Carry-in 1 gives A = 0,
status 0b00000011). -/
theorem sbc_borrow_witness :
    (immCpu 5 10 1).WellTyped ∧
    (immCpu 5 10 1).opcode < (immCpu 5 10 1).opLookup.length ∧
    ((immCpu 5 10 1).sbc.map fun p => (p.1, p.2.A, p.2.Status)) = some (1, 251, 128) ∧
    ((immCpu 5 5 1).sbc.map fun p => (p.1, p.2.A, p.2.Status)) = some (1, 0, 3) ∧
    ∃ M c0 c', (immCpu 5 10 1).fetch = some (M, c0) ∧ (immCpu 5 10 1).sbc = some (1, c') ∧
      ((immCpu 5 10 1).GetFlag C = 0 ∨ (immCpu 5 10 1).GetFlag C = 1) ∧
      (c'.A : Int) = (((immCpu 5 10 1).A : Int) - (M : Int)
        - (1 - ((immCpu 5 10 1).GetFlag C : Int))) % 256 ∧
      (c'.GetFlag C ≠ 0 ↔ (immCpu 5 10 1).A ≥ M + (1 - (immCpu 5 10 1).GetFlag C)) :=
  ⟨immCpu_wellTyped 5 10 1 (by decide) (by decide) (by decide), by decide, by decide,
    by decide,
    sbc_borrow (immCpu 5 10 1)
      (immCpu_wellTyped 5 10 1 (by decide) (by decide) (by decide)) (by decide)⟩

end Cpu

namespace Cpu

variable {φ : Type}

theorem SetFlag_eq (c : MOS6502 φ) (f : Nat) (b : Bool) :
    c.SetFlag f b = { c with Status := (c.SetFlag f b).Status } := by
  unfold MOS6502.SetFlag
  cases b <;> rfl

theorem addCore_eq (c0 : MOS6502 φ) (mem : Nat) :
    addCore c0 mem =
      { c0 with A := (addCore c0 mem).A, Status := (addCore c0 mem).Status } := by
  simp only [addCore]
  generalize (((c0.A + mem + c0.GetFlag C) % 65536 &&& 0x00ff) == 0) = bz
  generalize decide ((c0.A + mem + c0.GetFlag C) % 65536 > 0x00ff) = bc
  generalize ((c0.A + mem + c0.GetFlag C) % 65536 &&& 0x80 != 0) = bn
  generalize (bitClear16 (c0.A ^^^ (c0.A + mem + c0.GetFlag C) % 65536) (c0.A ^^^ mem)
    &&& 0x80 != 0) = bv
  rw [SetFlag_eq (((c0.SetFlag Z bz).SetFlag C bc).SetFlag N bn) V bv,
    SetFlag_eq ((c0.SetFlag Z bz).SetFlag C bc) N bn,
    SetFlag_eq (c0.SetFlag Z bz) C bc, SetFlag_eq c0 Z bz]

theorem GetFlag_SetFlag_C_true (c : MOS6502 φ) : (c.SetFlag C true).GetFlag C = 1 := by
  have h1 : (c.SetFlag C true).GetFlag C ≠ 0 := by
    rw [GetFlag_C_iff]
    show (c.Status ||| 2 ^ 0).testBit 0 = true
    rw [testBit_or_two_pow]
    simp
  have h2 := GetFlag_C (c.SetFlag C true)
  omega

/-- C5: ADC/SBC round trip.  From any well-typed state with the Carry flag clear whose
opcode has a table entry, adc returns a state c1; setting the Carry flag in c1 and
running sbc (which fetches the same operand) returns a state whose accumulator is the
original accumulator. -/
theorem adc_sbc_round_trip (c : MOS6502 φ) (hc : c.WellTyped)
    (h : c.opcode < c.opLookup.length) (hcarry : c.GetFlag C = 0) :
    ∃ M c0 c1 c0' c2, c.fetch = some (M, c0) ∧ c.adc = some (1, c1) ∧
      (c1.SetFlag C true).fetch = some (M, c0') ∧
      (c1.SetFlag C true).sbc = some (1, c2) ∧ c2.A = c.A := by
  obtain ⟨M, hf, _⟩ := fetch_of_entry c h
  have hM := (fetch_operand_lt c hc M _ hf).1
  have hx := xor_FF M hM
  have hA := hc.A
  have hadc := adc_eq_addCore c M _ hf
  simp only [] at hadc
  -- the state handed to sbc
  have hfields : (addCore { c with fetched := M } M).SetFlag C true =
      { c with fetched := M, A := (c.A + M + c.GetFlag C) % 256,
               Status := ((addCore { c with fetched := M } M).SetFlag C true).Status } := by
    rw [SetFlag_eq, addCore_eq]
    simp only [addCore_A]
    rfl
  -- its fetch returns the same operand
  have hf2 : ((addCore { c with fetched := M } M).SetFlag C true).fetch =
      some (M, (addCore { c with fetched := M } M).SetFlag C true) := by
    rw [hfields]
    unfold MOS6502.fetch at hf ⊢
    simp only [List.getElem?_eq_getElem h, MOS6502.read] at hf ⊢
    by_cases hm : (c.opLookup[c.opcode].addrMode != "IMM") = true
    · simp only [hm, if_true, Option.some.injEq, Prod.mk.injEq] at hf ⊢
      have e := hf.1
      simp only [] at e
      simp only [e, and_self]
    · simp only [hm, Bool.false_eq_true, if_false]
  have hsbc := sbc_eq_addCore _ M _ hf2
  have e0 : (0x00ff : Nat) = 0xFF := rfl
  have e1 : ((addCore { c with fetched := M } M).SetFlag C true).fetched = M := by
    rw [hfields]
  rw [e1, e0, hx] at hsbc
  refine ⟨M, _, _, _, _, hf, hadc, hf2, hsbc, ?_⟩
  rw [addCore_A, GetFlag_SetFlag_C_true]
  have e2 : ((addCore { c with fetched := M } M).SetFlag C true).A
      = (c.A + M + c.GetFlag C) % 256 := by
    rw [hfields]
  rw [e2, hcarry]
  omega

/-- Witness for C5: A = 250, M = 10, Carry clear; adc gives A = 4, then with the Carry
set sbc gives back A = 250. -/
theorem adc_sbc_round_trip_witness :
    (immCpu 250 10 0).WellTyped ∧
    (immCpu 250 10 0).opcode < (immCpu 250 10 0).opLookup.length ∧
    (immCpu 250 10 0).GetFlag C = 0 ∧
    ∃ M c0 c1 c0' c2, (immCpu 250 10 0).fetch = some (M, c0) ∧
      (immCpu 250 10 0).adc = some (1, c1) ∧
      (c1.SetFlag C true).fetch = some (M, c0') ∧
      (c1.SetFlag C true).sbc = some (1, c2) ∧ c2.A = (immCpu 250 10 0).A :=
  ⟨immCpu_wellTyped 250 10 0 (by decide) (by decide) (by decide), by decide, by decide,
    adc_sbc_round_trip (immCpu 250 10 0)
      (immCpu_wellTyped 250 10 0 (by decide) (by decide) (by decide)) (by decide)
      (by decide)⟩

end Cpu

/-! ## Addressing modes -/

namespace Cpu

variable {φ : Type}

theorem memCpu_wellTyped (ram : Nat → Nat) (pc x y : Nat) (hr : ∀ a, ram a < 256)
    (hpc : pc < 65536) (hx : x < 256) (hy : y < 256) : (memCpu ram pc x y).WellTyped where
  ram := hr
  A := by simp [memCpu]
  X := hx
  Y := hy
  Status := by simp [memCpu]
  SP := by simp [memCpu]
  PC := hpc
  fetched := by simp [memCpu]
  cycles := by simp [memCpu]
  absAddr := by simp [memCpu]
  relAddr := by simp [memCpu]
  opcode := by simp [memCpu]
  opCycles := by simp [memCpu]

theorem shl8_mod (hi : Nat) (h : hi < 256) : (hi <<< 8) % 65536 = hi * 256 := by
  rw [Nat.shiftLeft_eq]
  norm_num
  omega

theorem mkAddr (hi lo : Nat) (hhi : hi < 256) (hlo : lo < 256) :
    (hi <<< 8) % 65536 ||| lo = hi * 256 + lo := by
  rw [Nat.mod_eq_of_lt (by rw [Nat.shiftLeft_eq]; norm_num; omega)]
  exact shl8_or hi lo hlo

/-- The page test shared by abX, abY and izY: with `base = hi * 256 + lo`, comparing the
page of the result with `hi << 8` is comparing it with the page of the base. -/
theorem page_test (hi lo r : Nat) (hhi : hi < 256) (hlo : lo < 256) :
    (if (r &&& 0xFF00) != (hi <<< 8) % 65536 then (1 : Nat) else 0) =
      if r &&& 0xFF00 ≠ (hi * 256 + lo) &&& 0xFF00 then 1 else 0 := by
  have e : (hi * 256 + lo) &&& 0xFF00 = hi * 256 := by
    rw [and_FF00]; omega
  rw [e, shl8_mod hi hhi]
  by_cases h : r &&& 0xFF00 = hi * 256 <;> simp [h]

end Cpu

namespace Cpu

variable {φ : Type}

theorem abX_eq (c : MOS6502 φ) :
    c.abX =
      ((if ((((c.read ((c.PC + 1) % 65536) <<< 8) % 65536 ||| c.read c.PC) + c.X) % 65536
            &&& 0xFF00) != (c.read ((c.PC + 1) % 65536) <<< 8) % 65536 then 1 else 0),
       { c with
         PC := ((c.PC + 1) % 65536 + 1) % 65536,
         absAddr := (((c.read ((c.PC + 1) % 65536) <<< 8) % 65536 ||| c.read c.PC) + c.X)
           % 65536 }) := by
  unfold MOS6502.abX
  simp only [MOS6502.read]
  split <;> rfl

theorem abY_eq (c : MOS6502 φ) :
    c.abY =
      ((if ((((c.read ((c.PC + 1) % 65536) <<< 8) % 65536 ||| c.read c.PC) + c.Y) % 65536
            &&& 0xFF00) != (c.read ((c.PC + 1) % 65536) <<< 8) % 65536 then 1 else 0),
       { c with
         PC := ((c.PC + 1) % 65536 + 1) % 65536,
         absAddr := (((c.read ((c.PC + 1) % 65536) <<< 8) % 65536 ||| c.read c.PC) + c.Y)
           % 65536 }) := by
  unfold MOS6502.abY
  simp only [MOS6502.read]
  split <;> rfl

theorem izY_eq (c : MOS6502 φ) :
    c.izY =
      ((if ((((c.read (((c.read c.PC &&& 0x00FF) + 1) % 65536) <<< 8) % 65536
              ||| c.read (c.read c.PC &&& 0x00FF)) + c.Y) % 65536
            &&& 0xFF00) != (c.read (((c.read c.PC &&& 0x00FF) + 1) % 65536) <<< 8) % 65536
          then 1 else 0),
       { c with
         absAddr := (((c.read (((c.read c.PC &&& 0x00FF) + 1) % 65536) <<< 8) % 65536
              ||| c.read (c.read c.PC &&& 0x00FF)) + c.Y) % 65536 }) := by
  unfold MOS6502.izY
  simp only [MOS6502.read]
  split <;> rfl

theorem read_and_FF (c : MOS6502 φ) (hc : c.WellTyped) (a : Nat) :
    c.read a &&& 0x00FF = c.read a := by
  have h := read_lt c hc a
  have e : (0x00FF : Nat) = 0xFF := rfl
  rw [e, and_FF]
  omega

/-- C6: page-cross signal.  For abX, abY and izY, with baseAddr the little-endian
16-bit base address (hi * 256 + lo) before the index is added and resultAddr the
absAddr produced, which is (baseAddr + index) mod 65536, the returned value is 1 if
(resultAddr & 0xFF00) != (baseAddr & 0xFF00) and 0 otherwise. -/
theorem page_cross_signal (c : MOS6502 φ) (hc : c.WellTyped) :
    (c.abX.2.absAddr =
        (c.read ((c.PC + 1) % 65536) * 256 + c.read c.PC + c.X) % 65536 ∧
      c.abX.1 =
        if c.abX.2.absAddr &&& 0xFF00 ≠
            (c.read ((c.PC + 1) % 65536) * 256 + c.read c.PC) &&& 0xFF00
        then 1 else 0) ∧
    (c.abY.2.absAddr =
        (c.read ((c.PC + 1) % 65536) * 256 + c.read c.PC + c.Y) % 65536 ∧
      c.abY.1 =
        if c.abY.2.absAddr &&& 0xFF00 ≠
            (c.read ((c.PC + 1) % 65536) * 256 + c.read c.PC) &&& 0xFF00
        then 1 else 0) ∧
    (c.izY.2.absAddr =
        (c.read (c.read c.PC + 1) * 256 + c.read (c.read c.PC) + c.Y) % 65536 ∧
      c.izY.1 =
        if c.izY.2.absAddr &&& 0xFF00 ≠
            (c.read (c.read c.PC + 1) * 256 + c.read (c.read c.PC)) &&& 0xFF00
        then 1 else 0) := by
  have hlo := read_lt c hc c.PC
  have hhi := read_lt c hc ((c.PC + 1) % 65536)
  have hzlo := read_lt c hc (c.read c.PC)
  have hzhi := read_lt c hc (c.read c.PC + 1)
  have hz : (c.read c.PC + 1) % 65536 = c.read c.PC + 1 := by omega
  refine ⟨?_, ?_, ?_⟩
  · rw [abX_eq]
    simp only [mkAddr _ _ hhi hlo]
    exact ⟨trivial, page_test _ _ _ hhi hlo⟩
  · rw [abY_eq]
    simp only [mkAddr _ _ hhi hlo]
    exact ⟨trivial, page_test _ _ _ hhi hlo⟩
  · rw [izY_eq]
    simp only [read_and_FF c hc, hz, mkAddr _ _ hzhi hzlo]
    exact ⟨trivial, page_test _ _ _ hzhi hzlo⟩

end Cpu

namespace Cpu

variable {φ : Type}

theorem absIndexRam_lt (a : Nat) : absIndexRam a < 256 := by
  unfold absIndexRam
  split_ifs <;> decide

theorem indBugRam_lt (a : Nat) : indBugRam a < 256 := by
  unfold indBugRam
  split_ifs <;> decide

theorem zpEdgeRam_lt (a : Nat) : zpEdgeRam a < 256 := by
  unfold zpEdgeRam
  split_ifs <;> decide

theorem indirectIndexRam_lt (a : Nat) : indirectIndexRam a < 256 := by
  unfold indirectIndexRam
  split_ifs <;> decide

/-- Witness for C6 on TestAbsIndex "different page": bytes FE CA and X = 5 give
absAddr 0xCB03 and the signal 1; with X = 1 the address 0xCAFF stays on the page and
the signal is 0. -/
theorem page_cross_signal_witness :
    (memCpu absIndexRam 0 5 0).WellTyped ∧
    ((memCpu absIndexRam 0 5 0).abX.1, (memCpu absIndexRam 0 5 0).abX.2.absAddr)
      = (1, 0xCB03) ∧
    ((memCpu absIndexRam 0 1 0).abX.1, (memCpu absIndexRam 0 1 0).abX.2.absAddr)
      = (0, 0xCAFF) ∧
    (memCpu absIndexRam 0 5 0).abX.1 =
      (if (memCpu absIndexRam 0 5 0).abX.2.absAddr &&& 0xFF00 ≠
          ((memCpu absIndexRam 0 5 0).read (((memCpu absIndexRam 0 5 0).PC + 1) % 65536) * 256
            + (memCpu absIndexRam 0 5 0).read (memCpu absIndexRam 0 5 0).PC) &&& 0xFF00
        then 1 else 0) :=
  ⟨memCpu_wellTyped absIndexRam 0 5 0 absIndexRam_lt (by decide) (by decide) (by decide),
    by decide, by decide,
    (page_cross_signal (memCpu absIndexRam 0 5 0)
      (memCpu_wellTyped absIndexRam 0 5 0 absIndexRam_lt (by decide) (by decide)
        (by decide))).1.2⟩

end Cpu

namespace Cpu

variable {φ : Type}

theorem ind_eq (c : MOS6502 φ) :
    c.ind =
      (0, { c with
        PC := ((c.PC + 1) % 65536 + 1) % 65536,
        absAddr :=
          if c.read c.PC = 0x00FF then
            (c.read (((c.read ((c.PC + 1) % 65536) <<< 8) % 65536 ||| c.read c.PC)
              &&& 0xFF00) <<< 8) % 65536
              ||| c.read ((c.read ((c.PC + 1) % 65536) <<< 8) % 65536 ||| c.read c.PC)
          else
            (c.read ((((c.read ((c.PC + 1) % 65536) <<< 8) % 65536 ||| c.read c.PC) + 1)
              % 65536) <<< 8) % 65536
              ||| c.read ((c.read ((c.PC + 1) % 65536) <<< 8) % 65536 ||| c.read c.PC) }) := by
  unfold MOS6502.ind
  simp only [MOS6502.read]
  by_cases h : c.Bus.Read c.PC false = 0x00FF
  · simp [h]
  · simp [h]

/-- C7: indirect mode with the page wrap.  With ptr the little-endian 16-bit value of
the bytes read at PC and PC+1, ind returns 0 and sets absAddr so that its low byte is
the byte read at ptr and its high byte is the byte read at ptr + 1 when the low byte of
ptr is not 0xFF, and the byte read at ptr & 0xFF00 when it is 0xFF. -/
theorem ind_page_wrap (c : MOS6502 φ) (hc : c.WellTyped) (ptr : Nat)
    (hp : ptr = c.read ((c.PC + 1) % 65536) * 256 + c.read c.PC) :
    c.ind.1 = 0 ∧
    c.ind.2.absAddr % 256 = c.read ptr ∧
    (ptr % 256 ≠ 0xFF → c.ind.2.absAddr / 256 = c.read (ptr + 1)) ∧
    (ptr % 256 = 0xFF → c.ind.2.absAddr / 256 = c.read (ptr &&& 0xFF00)) := by
  have hlo := read_lt c hc c.PC
  have hhi := read_lt c hc ((c.PC + 1) % 65536)
  have h1 := read_lt c hc ptr
  have h2 := read_lt c hc (ptr + 1)
  have h3 := read_lt c hc (ptr &&& 0xFF00)
  have hm : ptr % 256 = c.read c.PC := by omega
  rw [ind_eq]
  simp only [mkAddr _ _ hhi hlo, ← hp]
  refine ⟨trivial, ?_, ?_, ?_⟩
  · by_cases h : c.read c.PC = 0x00FF
    · simp only [h, if_true, mkAddr _ _ h3 h1]; omega
    · have hs : (ptr + 1) % 65536 = ptr + 1 := by omega
      simp only [h, if_false, hs, mkAddr _ _ h2 h1]; omega
  · intro hne
    have h : ¬ c.read c.PC = 0x00FF := by omega
    have hs : (ptr + 1) % 65536 = ptr + 1 := by omega
    simp only [h, if_false, hs, mkAddr _ _ h2 h1]; omega
  · intro he
    have h : c.read c.PC = 0x00FF := by omega
    simp only [h, if_true, mkAddr _ _ h3 h1]; omega

/-- Witness for C7 on TestIndirectBug: pointer 0xCAFF with memory[0xCAFF] = 0xEF and
memory[0xCA00] = 0xBE resolves to 0xBEEF (memory[0xCB00] = 0x77 is not used). -/
theorem ind_page_wrap_witness :
    (memCpu indBugRam 0 0 0).WellTyped ∧
    0xCAFF = (memCpu indBugRam 0 0 0).read (((memCpu indBugRam 0 0 0).PC + 1) % 65536) * 256
      + (memCpu indBugRam 0 0 0).read (memCpu indBugRam 0 0 0).PC ∧
    (memCpu indBugRam 0 0 0).ind.2.absAddr = 0xBEEF ∧
    ((memCpu indBugRam 0 0 0).ind.1 = 0 ∧
      (memCpu indBugRam 0 0 0).ind.2.absAddr % 256 = (memCpu indBugRam 0 0 0).read 0xCAFF ∧
      (0xCAFF % 256 ≠ 0xFF →
        (memCpu indBugRam 0 0 0).ind.2.absAddr / 256
          = (memCpu indBugRam 0 0 0).read (0xCAFF + 1)) ∧
      (0xCAFF % 256 = 0xFF →
        (memCpu indBugRam 0 0 0).ind.2.absAddr / 256
          = (memCpu indBugRam 0 0 0).read (0xCAFF &&& 0xFF00))) :=
  ⟨memCpu_wellTyped indBugRam 0 0 0 indBugRam_lt (by decide) (by decide) (by decide),
    by decide, by decide,
    ind_page_wrap (memCpu indBugRam 0 0 0)
      (memCpu_wellTyped indBugRam 0 0 0 indBugRam_lt (by decide) (by decide) (by decide))
      0xCAFF (by decide)⟩

end Cpu

namespace Cpu

variable {φ : Type}

theorem zpEdgeCpu_wellTyped : zpEdgeCpu.WellTyped where
  ram := zpEdgeRam_lt
  A := by decide
  X := by decide
  Y := by decide
  Status := by decide
  SP := by decide
  PC := by decide
  fetched := by decide
  cycles := by decide
  absAddr := by decide
  relAddr := by decide
  opcode := by decide
  opCycles := by simp [zpEdgeCpu, memCpu]

/-- Counterexample to C8 as stated: with the operand byte 0xFF and X = 0 the zero-page
pointer is zp = 0xFF; izX and izY read the high address byte from 0x0100 (0x56), not
from (zp + 1) & 0xFF = 0x0000 (0x12), so absAddr is 0x5634 and not 0x1234. -/
theorem izX_izY_zero_page_wrap_counterexample :
    zpEdgeCpu.izX.2.absAddr = 0x5634 ∧
    zpEdgeCpu.izY.2.absAddr = 0x5634 ∧
    zpEdgeCpu.read ((((zpEdgeCpu.read zpEdgeCpu.PC + zpEdgeCpu.X) &&& 0xFF) + 1) &&& 0xFF)
        * 256 + zpEdgeCpu.read ((zpEdgeCpu.read zpEdgeCpu.PC + zpEdgeCpu.X) &&& 0xFF)
      = 0x1234 ∧
    ¬ (zpEdgeCpu.izX.2.absAddr =
        zpEdgeCpu.read ((((zpEdgeCpu.read zpEdgeCpu.PC + zpEdgeCpu.X) &&& 0xFF) + 1) &&& 0xFF)
          * 256 + zpEdgeCpu.read ((zpEdgeCpu.read zpEdgeCpu.PC + zpEdgeCpu.X) &&& 0xFF)) ∧
    ¬ (zpEdgeCpu.izY.2.absAddr =
        (zpEdgeCpu.read ((zpEdgeCpu.read zpEdgeCpu.PC + 1) &&& 0xFF) * 256
          + zpEdgeCpu.read (zpEdgeCpu.read zpEdgeCpu.PC) + zpEdgeCpu.Y) % 65536) := by
  decide

theorem izX_eq (c : MOS6502 φ) :
    c.izX =
      (0, { c with
        PC := (c.PC + 1) % 65536,
        absAddr :=
          (c.read (((((c.read c.PC + c.X) % 65536) &&& 0x00FF) + 1) % 65536) <<< 8) % 65536
            ||| c.read (((c.read c.PC + c.X) % 65536) &&& 0x00FF) }) := by
  unfold MOS6502.izX
  simp only [MOS6502.read]

/-- C8 as amended: izX and izY read their 16-bit pointer from zp and zp + 1, the next
memory location, without wrapping inside the zero page.  With zp = (byte at PC + X)
& 0xFF for izX and zp = byte at PC for izY, the low address byte is read from zp and
the high address byte from zp + 1 (address 0x0100 when zp = 0xFF); izX returns 0 and
sets absAddr to that 16-bit value, izY sets absAddr to that value plus Y modulo 65536.
Whenever zp is not 0xFF this is the address (zp + 1) & 0xFF of the claim. -/
theorem izX_izY_pointer (c : MOS6502 φ) (hc : c.WellTyped) :
    c.izX.1 = 0 ∧
    c.izX.2.absAddr =
      c.read (((c.read c.PC + c.X) &&& 0xFF) + 1) * 256
        + c.read ((c.read c.PC + c.X) &&& 0xFF) ∧
    c.izY.2.absAddr =
      (c.read (c.read c.PC + 1) * 256 + c.read (c.read c.PC) + c.Y) % 65536 ∧
    ((c.read c.PC + c.X) &&& 0xFF ≠ 0xFF →
      (((c.read c.PC + c.X) &&& 0xFF) + 1) &&& 0xFF = ((c.read c.PC + c.X) &&& 0xFF) + 1) ∧
    (c.read c.PC ≠ 0xFF → (c.read c.PC + 1) &&& 0xFF = c.read c.PC + 1) := by
  have hv := read_lt c hc c.PC
  have hX := hc.X
  have e : ((c.read c.PC + c.X) % 65536) &&& 0x00FF = (c.read c.PC + c.X) &&& 0xFF := by
    have e0 : (0x00FF : Nat) = 0xFF := rfl
    rw [e0, and_FF, and_FF]; omega
  have hzp : (c.read c.PC + c.X) &&& 0xFF < 256 := by rw [and_FF]; omega
  have hs : (((c.read c.PC + c.X) &&& 0xFF) + 1) % 65536
      = ((c.read c.PC + c.X) &&& 0xFF) + 1 := by omega
  have hz : (c.read c.PC + 1) % 65536 = c.read c.PC + 1 := by omega
  refine ⟨by rw [izX_eq], ?_, ?_, ?_, ?_⟩
  · rw [izX_eq]
    simp only [e, hs, mkAddr _ _ (read_lt c hc _) (read_lt c hc _)]
  · rw [izY_eq]
    simp only [read_and_FF c hc, hz, mkAddr _ _ (read_lt c hc _) (read_lt c hc _)]
  · intro hne
    rw [and_FF (((c.read c.PC + c.X) &&& 0xFF) + 1)]
    omega
  · intro hne
    rw [and_FF]
    omega

/-- Witness for C8 as amended, on TestIndirectIndex (operand byte 0x10, pointer bytes
FE CA at 0x10 and 0x11, Y = 0x10 give absAddr 0xCB0E) and on the zero-page edge
(zp = 0xFF reads the high byte from 0x0100). -/
theorem izX_izY_pointer_witness :
    indirectIndexCpu.WellTyped ∧
    indirectIndexCpu.izY.2.absAddr = 0xCB0E ∧
    (indirectIndexCpu.izX.1 = 0 ∧
    indirectIndexCpu.izX.2.absAddr =
      indirectIndexCpu.read
          (((indirectIndexCpu.read indirectIndexCpu.PC + indirectIndexCpu.X) &&& 0xFF) + 1)
        * 256
        + indirectIndexCpu.read
            ((indirectIndexCpu.read indirectIndexCpu.PC + indirectIndexCpu.X) &&& 0xFF) ∧
    indirectIndexCpu.izY.2.absAddr =
      (indirectIndexCpu.read (indirectIndexCpu.read indirectIndexCpu.PC + 1) * 256
        + indirectIndexCpu.read (indirectIndexCpu.read indirectIndexCpu.PC)
        + indirectIndexCpu.Y) % 65536 ∧
    ((indirectIndexCpu.read indirectIndexCpu.PC + indirectIndexCpu.X) &&& 0xFF ≠ 0xFF →
      (((indirectIndexCpu.read indirectIndexCpu.PC + indirectIndexCpu.X) &&& 0xFF) + 1)
          &&& 0xFF
        = ((indirectIndexCpu.read indirectIndexCpu.PC + indirectIndexCpu.X) &&& 0xFF) + 1) ∧
    (indirectIndexCpu.read indirectIndexCpu.PC ≠ 0xFF →
      (indirectIndexCpu.read indirectIndexCpu.PC + 1) &&& 0xFF
        = indirectIndexCpu.read indirectIndexCpu.PC + 1)) :=
  ⟨memCpu_wellTyped indirectIndexRam 0x0100 0 0x10 indirectIndexRam_lt (by decide)
      (by decide) (by decide),
    by decide,
    izX_izY_pointer indirectIndexCpu
      (memCpu_wellTyped indirectIndexRam 0x0100 0 0x10 indirectIndexRam_lt (by decide)
        (by decide) (by decide))⟩

end Cpu

namespace Cpu

variable {φ : Type}

/-- The program counter after each addressing-mode resolver, for every state: imp, zp0,
zpX, zpY, rel and izX advance it by 1, abs, abX, abY and ind by 2, and imm and izY leave
it where it was. -/
theorem resolver_pc (c : MOS6502 φ) :
    c.imp.2.PC = (c.PC + 1) % 65536 ∧
    c.zp0.2.PC = (c.PC + 1) % 65536 ∧
    c.zpX.2.PC = (c.PC + 1) % 65536 ∧
    c.zpY.2.PC = (c.PC + 1) % 65536 ∧
    c.rel.2.PC = (c.PC + 1) % 65536 ∧
    c.izX.2.PC = (c.PC + 1) % 65536 ∧
    c.abs.2.PC = ((c.PC + 1) % 65536 + 1) % 65536 ∧
    c.abX.2.PC = ((c.PC + 1) % 65536 + 1) % 65536 ∧
    c.abY.2.PC = ((c.PC + 1) % 65536 + 1) % 65536 ∧
    c.ind.2.PC = ((c.PC + 1) % 65536 + 1) % 65536 ∧
    c.izY.2.PC = c.PC ∧
    c.imm.2.PC = c.PC := by
  refine ⟨rfl, rfl, rfl, rfl, ?_, rfl, rfl, ?_, ?_, ?_, ?_, rfl⟩
  · unfold MOS6502.rel
    simp only []
    split <;> rfl
  · rw [abX_eq]
  · rw [abY_eq]
  · rw [ind_eq]
  · rw [izY_eq]

/-- C9 at the failing inputs: on the processor of TestIndirectIndex (PC = 0x0100), imp,
which consumes no operand byte, moves PC to 0x0101; izY, which consumes the operand
byte at 0x0100 (it resolves absAddr 0xCB0E from it), leaves PC at 0x0100, whereas its
sibling izX moves PC to 0x0101. -/
theorem pc_advance_imp_izY_at_input :
    indirectIndexCpu.WellTyped ∧
    indirectIndexCpu.PC = 0x0100 ∧
    indirectIndexCpu.imp.2.PC = 0x0101 ∧
    indirectIndexCpu.izY.2.absAddr = 0xCB0E ∧
    indirectIndexCpu.izY.2.PC = 0x0100 ∧
    indirectIndexCpu.izX.2.PC = 0x0101 :=
  ⟨memCpu_wellTyped indirectIndexRam 0x0100 0 0x10 indirectIndexRam_lt (by decide)
      (by decide) (by decide),
    by decide, by decide, by decide, by decide, by decide⟩

/-- C10 at the failing input: with A = 0x42, PC = 0x0200 and the byte 0xFF stored at
0x0200, imm returns 0 with fetched = 0x42 (the accumulator, not the byte at PC) and PC
still 0x0200. -/
theorem imm_at_input :
    zpEdgeCpu.WellTyped ∧
    zpEdgeCpu.A = 0x42 ∧
    zpEdgeCpu.PC = 0x0200 ∧
    zpEdgeCpu.read zpEdgeCpu.PC = 0xFF ∧
    zpEdgeCpu.imm.1 = 0 ∧
    zpEdgeCpu.imm.2.fetched = 0x42 ∧
    zpEdgeCpu.imm.2.PC = 0x0200 :=
  ⟨zpEdgeCpu_wellTyped, by decide, by decide, by decide, by decide, by decide, by decide⟩

end Cpu

/-! ## Zero-page, relative and absolute modes -/

namespace Cpu

variable {φ : Type}

/-- C11: zero-page modes stay in page zero.  zp0 sets absAddr to the byte at PC, zpX and
zpY set absAddr to (byte at PC + X) mod 256 and (byte at PC + Y) mod 256; the resulting
absAddr is at most 0x00FF, and all three return 0. -/
theorem zero_page_modes (c : MOS6502 φ) (hc : c.WellTyped) :
    (c.zp0.1 = 0 ∧ c.zp0.2.absAddr = c.read c.PC ∧ c.zp0.2.absAddr ≤ 0x00FF) ∧
    (c.zpX.1 = 0 ∧ c.zpX.2.absAddr = (c.read c.PC + c.X) % 256 ∧
      c.zpX.2.absAddr ≤ 0x00FF) ∧
    (c.zpY.1 = 0 ∧ c.zpY.2.absAddr = (c.read c.PC + c.Y) % 256 ∧
      c.zpY.2.absAddr ≤ 0x00FF) := by
  have hv := read_lt c hc c.PC
  have e0 : (0x00FF : Nat) = 0xFF := rfl
  have h0 : c.zp0.2.absAddr = c.read c.PC := by
    show c.read c.PC &&& 0x00FF = c.read c.PC
    exact read_and_FF c hc c.PC
  have hX : c.zpX.2.absAddr = (c.read c.PC + c.X) % 256 := by
    show ((c.read c.PC + c.X) % 256) &&& 0x00FF = (c.read c.PC + c.X) % 256
    rw [e0, and_FF]; omega
  have hY : c.zpY.2.absAddr = (c.read c.PC + c.Y) % 256 := by
    show ((c.read c.PC + c.Y) % 256) &&& 0x00FF = (c.read c.PC + c.Y) % 256
    rw [e0, and_FF]; omega
  refine ⟨⟨rfl, h0, ?_⟩, ⟨rfl, hX, ?_⟩, ⟨rfl, hY, ?_⟩⟩
  · rw [h0]; omega
  · rw [hX]; omega
  · rw [hY]; omega

/-- Witness for C11 on TestZPx: the byte 0xFE at PC = 0 with X = 0xCA gives absAddr
0x00C8 = (0xFE + 0xCA) mod 256, and zp0 gives 0x00FE. -/
theorem zero_page_modes_witness :
    (memCpu absIndexRam 0 0xCA 0).WellTyped ∧
    (memCpu absIndexRam 0 0xCA 0).zp0.2.absAddr = 0x00FE ∧
    (memCpu absIndexRam 0 0xCA 0).zpX.2.absAddr = 0x00C8 ∧
    ((memCpu absIndexRam 0 0xCA 0).zpX.1 = 0 ∧
      (memCpu absIndexRam 0 0xCA 0).zpX.2.absAddr
        = ((memCpu absIndexRam 0 0xCA 0).read (memCpu absIndexRam 0 0xCA 0).PC
            + (memCpu absIndexRam 0 0xCA 0).X) % 256 ∧
      (memCpu absIndexRam 0 0xCA 0).zpX.2.absAddr ≤ 0x00FF) :=
  ⟨memCpu_wellTyped absIndexRam 0 0xCA 0 absIndexRam_lt (by decide) (by decide) (by decide),
    by decide, by decide,
    (zero_page_modes (memCpu absIndexRam 0 0xCA 0)
      (memCpu_wellTyped absIndexRam 0 0xCA 0 absIndexRam_lt (by decide) (by decide)
        (by decide))).2.1⟩

theorem or_FF00 (b : Nat) (h : b < 256) : b ||| 0xFF00 = 0xFF00 + b := by
  have h1 := @Nat.mul_add_lt_is_or 8 b h 255
  rw [Nat.lor_comm]
  simpa using h1.symm

theorem rel_eq (c : MOS6502 φ) :
    c.rel =
      (0, { c with
        relAddr := if c.read c.PC &&& 0x80 ≠ 0 then c.read c.PC ||| 0xFF00 else c.read c.PC,
        PC := (c.PC + 1) % 65536 }) := by
  unfold MOS6502.rel
  simp only []
  by_cases h : c.read c.PC &&& 0x80 = 0
  · simp [h]
  · simp [h]

/-- C12: relative mode sign-extends the offset.  With b the byte read at PC, rel returns
0 and sets relAddr = b when b < 0x80 and relAddr = 0xFF00 | b when b >= 0x80; for every
16-bit address p, (p + relAddr) mod 65536 equals (p + s) mod 65536, where s is b read as
a signed 8-bit integer (b when b < 128, b - 256 otherwise). -/
theorem rel_sign_extend (c : MOS6502 φ) (hc : c.WellTyped) :
    c.rel.1 = 0 ∧
    (c.read c.PC < 0x80 → c.rel.2.relAddr = c.read c.PC) ∧
    (0x80 ≤ c.read c.PC → c.rel.2.relAddr = 0xFF00 ||| c.read c.PC) ∧
    (-128 ≤ (if c.read c.PC < 0x80 then (c.read c.PC : Int) else (c.read c.PC : Int) - 256) ∧
      (if c.read c.PC < 0x80 then (c.read c.PC : Int) else (c.read c.PC : Int) - 256)
        ≤ 127) ∧
    ∀ p : Nat, p < 65536 →
      (((p + c.rel.2.relAddr) % 65536 : Nat) : Int) =
        ((p : Int) +
          (if c.read c.PC < 0x80 then (c.read c.PC : Int) else (c.read c.PC : Int) - 256))
          % 65536 := by
  have hb := read_lt c hc c.PC
  have h80 := and_80_ne_zero (c.read c.PC)
  have hor := or_FF00 (c.read c.PC) hb
  rw [rel_eq]
  simp only []
  by_cases hlt : c.read c.PC < 0x80
  · have hz : ¬ (c.read c.PC &&& 0x80 ≠ 0) := by rw [h80]; omega
    rw [if_neg hz, if_pos hlt]
    exact ⟨trivial, fun _ => rfl, fun h => by omega, by omega, fun p hp => by omega⟩
  · have hz : c.read c.PC &&& 0x80 ≠ 0 := by rw [h80]; omega
    rw [if_pos hz, if_neg hlt]
    exact ⟨trivial, fun h => by omega, fun _ => by rw [Nat.lor_comm], by omega,
      fun p hp => by omega⟩

end Cpu

namespace Cpu

variable {φ : Type}

theorem relRam_lt (b : Nat) (hb : b < 256) (a : Nat) : relRam b a < 256 := by
  unfold relRam
  split_ifs
  · exact hb
  · decide

/-- Witness for C12 on TestRel: offset 0x90 gives relAddr 0xFF90 (and 0x50 gives 0x0050);
added to the address 0x1000 it yields 0x0F90 = 0x1000 - 112. -/
theorem rel_sign_extend_witness :
    (memCpu (relRam 0x90) 0 0 0).WellTyped ∧
    (memCpu (relRam 0x50) 0 0 0).rel.2.relAddr = 0x0050 ∧
    (memCpu (relRam 0x90) 0 0 0).rel.2.relAddr = 0xFF90 ∧
    (0x1000 + (memCpu (relRam 0x90) 0 0 0).rel.2.relAddr) % 65536 = 0x0F90 ∧
    (((0x1000 + (memCpu (relRam 0x90) 0 0 0).rel.2.relAddr) % 65536 : Nat) : Int) =
      (((0x1000 : Nat) : Int) +
        (if (memCpu (relRam 0x90) 0 0 0).read (memCpu (relRam 0x90) 0 0 0).PC < 0x80
          then ((memCpu (relRam 0x90) 0 0 0).read (memCpu (relRam 0x90) 0 0 0).PC : Int)
          else ((memCpu (relRam 0x90) 0 0 0).read (memCpu (relRam 0x90) 0 0 0).PC : Int)
            - 256)) % 65536 :=
  ⟨memCpu_wellTyped (relRam 0x90) 0 0 0 (relRam_lt 0x90 (by decide)) (by decide)
      (by decide) (by decide),
    by decide, by decide, by decide,
    (rel_sign_extend (memCpu (relRam 0x90) 0 0 0)
      (memCpu_wellTyped (relRam 0x90) 0 0 0 (relRam_lt 0x90 (by decide)) (by decide)
        (by decide) (by decide))).2.2.2.2 0x1000 (by decide)⟩

/-- C13: absolute-family effective address.  With base = (byte at PC+1) * 256 + (byte at
PC), abs sets absAddr = base, abX sets absAddr = (base + X) mod 65536 and abY sets
absAddr = (base + Y) mod 65536. -/
theorem absolute_family_address (c : MOS6502 φ) (hc : c.WellTyped) :
    (MOS6502.abs c).2.absAddr = c.read ((c.PC + 1) % 65536) * 256 + c.read c.PC ∧
    c.abX.2.absAddr = (c.read ((c.PC + 1) % 65536) * 256 + c.read c.PC + c.X) % 65536 ∧
    c.abY.2.absAddr = (c.read ((c.PC + 1) % 65536) * 256 + c.read c.PC + c.Y) % 65536 := by
  have hlo := read_lt c hc c.PC
  have hhi := read_lt c hc ((c.PC + 1) % 65536)
  refine ⟨?_, ?_, ?_⟩
  · show (c.read ((c.PC + 1) % 65536) <<< 8) % 65536 ||| c.read c.PC = _
    exact mkAddr _ _ hhi hlo
  · rw [abX_eq]
    simp only [mkAddr _ _ hhi hlo]
  · rw [abY_eq]
    simp only [mkAddr _ _ hhi hlo]

/-- Witness for C13 on TestAbs and TestAbsIndex: bytes FE CA give 0xCAFE, and with
X = 5 give 0xCB03. -/
theorem absolute_family_address_witness :
    (memCpu absIndexRam 0 5 0).WellTyped ∧
    (MOS6502.abs (memCpu absIndexRam 0 5 0)).2.absAddr = 0xCAFE ∧
    (memCpu absIndexRam 0 5 0).abX.2.absAddr = 0xCB03 ∧
    ((MOS6502.abs (memCpu absIndexRam 0 5 0)).2.absAddr =
        (memCpu absIndexRam 0 5 0).read (((memCpu absIndexRam 0 5 0).PC + 1) % 65536) * 256
          + (memCpu absIndexRam 0 5 0).read (memCpu absIndexRam 0 5 0).PC ∧
      (memCpu absIndexRam 0 5 0).abX.2.absAddr =
        ((memCpu absIndexRam 0 5 0).read (((memCpu absIndexRam 0 5 0).PC + 1) % 65536) * 256
          + (memCpu absIndexRam 0 5 0).read (memCpu absIndexRam 0 5 0).PC
          + (memCpu absIndexRam 0 5 0).X) % 65536 ∧
      (memCpu absIndexRam 0 5 0).abY.2.absAddr =
        ((memCpu absIndexRam 0 5 0).read (((memCpu absIndexRam 0 5 0).PC + 1) % 65536) * 256
          + (memCpu absIndexRam 0 5 0).read (memCpu absIndexRam 0 5 0).PC
          + (memCpu absIndexRam 0 5 0).Y) % 65536) :=
  ⟨memCpu_wellTyped absIndexRam 0 5 0 absIndexRam_lt (by decide) (by decide) (by decide),
    by decide, by decide,
    absolute_family_address (memCpu absIndexRam 0 5 0)
      (memCpu_wellTyped absIndexRam 0 5 0 absIndexRam_lt (by decide) (by decide)
        (by decide))⟩

end Cpu

/-! ## The clock -/

namespace Cpu

variable {φ : Type}

theorem clock_idle (run : φ → MOS6502 φ → Option (Nat × MOS6502 φ)) (c : MOS6502 φ)
    (h : c.cycles ≠ 0) :
    c.clock run = some { c with cycles := (c.cycles + 255) % 256 } := by
  unfold MOS6502.clock
  simp [h]

theorem SetFlag_addrModeLookup (c : MOS6502 φ) (f : Nat) (b : Bool) :
    (c.SetFlag f b).addrModeLookup = c.addrModeLookup := by
  rw [SetFlag_eq]

theorem clock_dispatch (run : φ → MOS6502 φ → Option (Nat × MOS6502 φ)) (c : MOS6502 φ)
    (instruction : Instruction φ) (mode : φ) (a b : Nat) (c5 c6 : MOS6502 φ)
    (hcyc : c.cycles = 0)
    (hentry : c.opLookup[c.read c.PC]? = some instruction)
    (hmode : c.addrModeLookup.lookup instruction.addrMode = some mode)
    (hres : run mode (beforeResolve c instruction) = some (a, c5))
    (hop : run instruction.op c5 = some (b, c6)) :
    c.clock run = some (afterOp c6 a b) := by
  unfold MOS6502.clock
  have hm : (beforeResolve c instruction).addrModeLookup.lookup instruction.addrMode
      = some mode := by
    simp only [beforeResolve, SetFlag_addrModeLookup]
    exact hmode
  rw [if_pos (by rw [hcyc]; rfl)]
  simp only [hentry]
  simp only [beforeResolve] at hm hres
  simp only [hm, hres, hop]
  rfl

end Cpu

namespace Cpu

variable {φ : Type}

theorem afterOp_cycles (c6 : MOS6502 φ) (a b : Nat) :
    (afterOp c6 a b).cycles = ((c6.cycles + (a &&& b)) % 256 + 255) % 256 := by
  simp only [afterOp]
  rw [SetFlag_eq]

theorem afterOp_unused (c6 : MOS6502 φ) (a b : Nat) :
    (afterOp c6 a b).GetFlag U ≠ 0 := by
  have hU : (afterOp c6 a b).GetFlag U ≠ 0 ↔ (afterOp c6 a b).Status.testBit 5 = true :=
    GetFlag_ne_zero _ 5
  rw [hU]
  show (c6.Status ||| 2 ^ 5).testBit 5 = true
  rw [testBit_or_two_pow]
  simp

/-- C15: idle pulses do nothing but count down.  In every state whose cycle counter is
greater than 0, one clock pulse returns the same state with the cycle counter decremented
by exactly 1: A, X, Y, Status, SP, PC, opcode, fetched, absAddr, relAddr, the tables and
memory are unchanged, whatever the function handles mean. -/
theorem idle_pulse (run : φ → MOS6502 φ → Option (Nat × MOS6502 φ)) (c : MOS6502 φ)
    (hpos : 0 < c.cycles) (hlt : c.cycles < 256) :
    c.clock run = some { c with cycles := c.cycles - 1 } := by
  rw [clock_idle run c (by omega)]
  have e : (c.cycles + 255) % 256 = c.cycles - 1 := by omega
  rw [e]

/-- Witness for C15: the processor of TestCycle after its dispatch pulse (counter 2);
the next pulse only moves the counter to 1. -/
theorem idle_pulse_witness :
    0 < ({ cycleCpu 3 0 0 with cycles := 2 } : MOS6502 TestFn).cycles ∧
    ({ cycleCpu 3 0 0 with cycles := 2 } : MOS6502 TestFn).cycles < 256 ∧
    ({ cycleCpu 3 0 0 with cycles := 2 } : MOS6502 TestFn).clock TestFn.run
      = some { ({ cycleCpu 3 0 0 with cycles := 2 } : MOS6502 TestFn) with
          cycles := ({ cycleCpu 3 0 0 with cycles := 2 } : MOS6502 TestFn).cycles - 1 } :=
  ⟨by decide, by decide,
    idle_pulse TestFn.run { cycleCpu 3 0 0 with cycles := 2 } (by decide) (by decide)⟩

/-- C16: the extra-cycle AND rule.  On a dispatch pulse (cycle counter 0 on entry) whose
opcode has the table entry `instruction`, whose registered resolver returns a and whose
operation returns b, both leaving the cycle counter at the base cost N they were handed,
clock returns a state whose cycle counter is (N + (a AND b) - 1) mod 256. -/
theorem extra_cycle_and_rule (run : φ → MOS6502 φ → Option (Nat × MOS6502 φ))
    (c : MOS6502 φ) (instruction : Instruction φ) (mode : φ) (a b : Nat)
    (c5 c6 : MOS6502 φ)
    (hcyc : c.cycles = 0)
    (hentry : c.opLookup[c.read c.PC]? = some instruction)
    (hmode : c.addrModeLookup.lookup instruction.addrMode = some mode)
    (hres : run mode (beforeResolve c instruction) = some (a, c5))
    (hop : run instruction.op c5 = some (b, c6))
    (hkeep : c6.cycles = instruction.cycles) :
    ∃ c', c.clock run = some c' ∧
      (c'.cycles : Int) = ((instruction.cycles : Int) + ((a &&& b : Nat) : Int) - 1) % 256 := by
  refine ⟨_, clock_dispatch run c instruction mode a b c5 c6 hcyc hentry hmode hres hop, ?_⟩
  rw [afterOp_cycles, hkeep]
  omega

/-- Witness for C16 on TestCycleExtraCycles: base cost 3 with a = b = 1 leaves the
counter at 3; with a = 1, b = 0 or a = 0, b = 1 it is left at 2. -/
theorem extra_cycle_and_rule_witness :
    ((cycleCpu 3 1 1).clock TestFn.run).map (fun s => s.cycles) = some 3 ∧
    ((cycleCpu 3 1 0).clock TestFn.run).map (fun s => s.cycles) = some 2 ∧
    ((cycleCpu 3 0 1).clock TestFn.run).map (fun s => s.cycles) = some 2 ∧
    ∃ c', (cycleCpu 3 1 1).clock TestFn.run = some c' ∧
      (c'.cycles : Int) =
        (((testInstruction 3 1).cycles : Int) + ((1 &&& 1 : Nat) : Int) - 1) % 256 :=
  ⟨by decide, by decide, by decide,
    extra_cycle_and_rule TestFn.run (cycleCpu 3 1 1) (testInstruction 3 1) (.ret 1) 1 1
      (beforeResolve (cycleCpu 3 1 1) (testInstruction 3 1))
      { beforeResolve (cycleCpu 3 1 1) (testInstruction 3 1) with A := 0xDE }
      rfl rfl rfl rfl rfl rfl⟩

end Cpu

namespace Cpu

variable {φ : Type}

theorem pulses_succ (run : φ → MOS6502 φ → Option (Nat × MOS6502 φ)) (n : Nat)
    (c c1 : MOS6502 φ) (h : pulses run n c = some c1) :
    pulses run (n + 1) c = c1.clock run := by
  show (match pulses run n c with
    | none => none
    | some c1 => c1.clock run) = _
  rw [h]

/-- After a dispatch pulse that left the counter at `N - 1`, every further pulse up to
the `N`-th only counts down. -/
theorem pulses_count_down (run : φ → MOS6502 φ → Option (Nat × MOS6502 φ))
    (c d : MOS6502 φ) (N : Nat) (hN : N < 256) (h1 : c.clock run = some d)
    (hd : d.cycles = N - 1) :
    ∀ k, k + 1 ≤ N → pulses run (k + 1) c = some { d with cycles := N - (k + 1) } := by
  intro k
  induction k with
  | zero =>
    intro _
    rw [pulses_succ run 0 c c rfl, h1, ← hd]
  | succ k ih =>
    intro hk
    have hprev := ih (by omega)
    rw [pulses_succ run (k + 1) c _ hprev]
    have hne : ({ d with cycles := N - (k + 1) } : MOS6502 φ).cycles ≠ 0 := by
      show N - (k + 1) ≠ 0
      omega
    rw [clock_idle run _ hne]
    have e : (N - (k + 1) + 255) % 256 = N - (k + 1 + 1) := by omega
    simp only [e]

/-- C14: dispatching an instruction with base cycle cost N whose resolver and operation
yield no extra cycle takes exactly N clock pulses.  Starting from cycle counter 0, with
the opcode at PC in the table, its mode registered, the resolver returning a and the
operation returning b with a AND b = 0, both leaving the cycle counter at the base cost
N, the state after the i-th pulse (1 <= i <= N) is the state left by the dispatch pulse
with cycle counter N - i; the counter is 0 exactly at i = N. -/
theorem dispatch_takes_base_cycles (run : φ → MOS6502 φ → Option (Nat × MOS6502 φ))
    (c : MOS6502 φ) (instruction : Instruction φ) (mode : φ) (a b : Nat)
    (c5 c6 : MOS6502 φ)
    (hcyc : c.cycles = 0)
    (hentry : c.opLookup[c.read c.PC]? = some instruction)
    (hmode : c.addrModeLookup.lookup instruction.addrMode = some mode)
    (hres : run mode (beforeResolve c instruction) = some (a, c5))
    (hop : run instruction.op c5 = some (b, c6))
    (hkeep : c6.cycles = instruction.cycles)
    (hN : instruction.cycles < 256)
    (hno : a &&& b = 0)
    (i : Nat) (h1 : 1 ≤ i) (hi : i ≤ instruction.cycles) :
    ∃ ci, pulses run i c = some ci ∧
      ci = { afterOp c6 a b with cycles := instruction.cycles - i } ∧
      ci.cycles = instruction.cycles - i ∧
      (ci.cycles = 0 ↔ i = instruction.cycles) := by
  have hd := clock_dispatch run c instruction mode a b c5 c6 hcyc hentry hmode hres hop
  have hdc : (afterOp c6 a b).cycles = instruction.cycles - 1 := by
    rw [afterOp_cycles, hkeep, hno]
    omega
  obtain ⟨k, rfl⟩ : ∃ k, i = k + 1 := ⟨i - 1, by omega⟩
  have hp := pulses_count_down run c _ instruction.cycles hN hd hdc k hi
  refine ⟨_, hp, rfl, rfl, ?_⟩
  show instruction.cycles - (k + 1) = 0 ↔ k + 1 = instruction.cycles
  omega

/-- Witness for C14 on TestCycle: base cost 3, resolver and operation returning 0; the
counter is 2, 1, 0 after the first, second and third pulse, and the accumulator is 0xDE. -/
theorem dispatch_takes_base_cycles_witness :
    (pulses TestFn.run 1 (cycleCpu 3 0 0)).map (fun s => (s.cycles, s.A)) = some (2, 0xDE) ∧
    (pulses TestFn.run 2 (cycleCpu 3 0 0)).map (fun s => (s.cycles, s.A)) = some (1, 0xDE) ∧
    (pulses TestFn.run 3 (cycleCpu 3 0 0)).map (fun s => (s.cycles, s.A)) = some (0, 0xDE) ∧
    ∃ ci, pulses TestFn.run 3 (cycleCpu 3 0 0) = some ci ∧
      ci = { afterOp ({ beforeResolve (cycleCpu 3 0 0) (testInstruction 3 0) with
                        A := 0xDE } : MOS6502 TestFn) 0 0 with
             cycles := (testInstruction 3 0).cycles - 3 } ∧
      ci.cycles = (testInstruction 3 0).cycles - 3 ∧
      (ci.cycles = 0 ↔ 3 = (testInstruction 3 0).cycles) :=
  ⟨by decide, by decide, by decide,
    dispatch_takes_base_cycles TestFn.run (cycleCpu 3 0 0) (testInstruction 3 0) (.ret 0)
      0 0 (beforeResolve (cycleCpu 3 0 0) (testInstruction 3 0))
      { beforeResolve (cycleCpu 3 0 0) (testInstruction 3 0) with A := 0xDE }
      rfl rfl rfl rfl rfl rfl (by decide) (by decide) 3 (by decide) (by decide)⟩

/-- C20: the Unused flag is forced.  On a dispatch pulse (cycle counter 0 on entry)
whose opcode has a table entry and whose mode is registered, once the resolver and the
operation have returned, in whatever state c6 the operation left the processor, clock
returns a state in which the Unused flag (bit 5 of Status) is 1. -/
theorem unused_flag_forced (run : φ → MOS6502 φ → Option (Nat × MOS6502 φ))
    (c : MOS6502 φ) (instruction : Instruction φ) (mode : φ) (a b : Nat)
    (c5 c6 : MOS6502 φ)
    (hcyc : c.cycles = 0)
    (hentry : c.opLookup[c.read c.PC]? = some instruction)
    (hmode : c.addrModeLookup.lookup instruction.addrMode = some mode)
    (hres : run mode (beforeResolve c instruction) = some (a, c5))
    (hop : run instruction.op c5 = some (b, c6)) :
    ∃ c', c.clock run = some c' ∧ c'.GetFlag U ≠ 0 ∧ c'.Status / 32 % 2 = 1 := by
  refine ⟨_, clock_dispatch run c instruction mode a b c5 c6 hcyc hentry hmode hres hop,
    afterOp_unused c6 a b, ?_⟩
  have h := afterOp_unused c6 a b
  have hU : (afterOp c6 a b).GetFlag U ≠ 0 ↔ (afterOp c6 a b).Status.testBit 5 = true :=
    GetFlag_ne_zero _ 5
  rw [hU, testBit_eq_div] at h
  simpa using h

/-- Witness for C20: an operation that sets the status register to 0; after the pulse
the status register is 0b00100000. -/
theorem unused_flag_forced_witness :
    (clearStatusCpu.clock TestFn.run).map (fun s => s.Status) = some 32 ∧
    ∃ c', clearStatusCpu.clock TestFn.run = some c' ∧ c'.GetFlag U ≠ 0 ∧
      c'.Status / 32 % 2 = 1 :=
  ⟨by decide,
    unused_flag_forced TestFn.run clearStatusCpu
      { name := "clr", op := .setStatus 0 0, addrMode := "testAddrMode", cycles := 2 }
      (.ret 0) 0 0
      (beforeResolve clearStatusCpu
        { name := "clr", op := .setStatus 0 0, addrMode := "testAddrMode", cycles := 2 })
      { beforeResolve clearStatusCpu
          { name := "clr", op := .setStatus 0 0, addrMode := "testAddrMode", cycles := 2 }
        with Status := 0 }
      rfl rfl rfl rfl rfl⟩

end Cpu

/-! ## Create6502, fetch and the flag accessors -/

namespace Cpu

variable {φ : Type}

/-- Counterexample to C17 as stated: the processor returned by Create6502 has an opcode
table of length 0, so no opcode byte has an entry, and fetch fails on it at the table
lookup.  Its Bus is nil, so a clock pulse on it already fails in `c.read(c.PC)`, whatever
the function handles mean; and with a bus attached (here the all-zero bus) the opcode
byte is read and both fetch and clock fail at the table lookup. -/
theorem Create6502_no_opcode_entry :
    Create6502.opLookup.length = 0 ∧
    Create6502.opLookup[0]? = none ∧
    Create6502.fetch = none ∧
    Create6502.read Create6502.PC = none ∧
    (∀ run, Create6502.clock run = none) ∧
    (Create6502.attach zeroBus).read (Create6502.attach zeroBus).PC = 0 ∧
    (Create6502.attach zeroBus).fetch = none ∧
    (Create6502.attach zeroBus).clock Method.run = none ∧
    ¬ (∀ op : Nat, op < 256 → ∃ instr, Create6502.opLookup[op]? = some instr ∧
        ∃ m, Create6502.addrModeLookup.lookup instr.addrMode = some m) := by
  refine ⟨rfl, rfl, rfl, rfl, fun _ => rfl, rfl, rfl, rfl, ?_⟩
  intro h
  obtain ⟨instr, h0, _⟩ := h 0 (by decide)
  exact Option.noConfusion h0

theorem Create6502_lookup (name : String)
    (h : name ∈ ["IMP", "IMM", "ZP0", "ZPX", "ZPY", "REL", "ABS", "ABX", "ABY", "IND",
      "IZX", "IZY"]) :
    ∃ m, Create6502.addrModeLookup.lookup name = some m := by
  simp only [List.mem_cons, List.mem_singleton, List.not_mem_nil, or_false] at h
  rcases h with h | h | h | h | h | h | h | h | h | h | h | h <;> subst h
  · exact ⟨.imp, rfl⟩
  · exact ⟨.imm, rfl⟩
  · exact ⟨.zp0, rfl⟩
  · exact ⟨.zpX, rfl⟩
  · exact ⟨.zpY, rfl⟩
  · exact ⟨.rel, rfl⟩
  · exact ⟨.abs, rfl⟩
  · exact ⟨.abX, rfl⟩
  · exact ⟨.abY, rfl⟩
  · exact ⟨.ind, rfl⟩
  · exact ⟨.izX, rfl⟩
  · exact ⟨.izY, rfl⟩

/-- C17 as amended: Create6502 returns a processor with a nil Bus, an empty opcode table
and the twelve addressing-mode names IMP, IMM, ZP0, ZPX, ZPY, REL, ABS, ABX, ABY, IND,
IZX, IZY registered in addrModeLookup.  Once a caller has attached a bus `b` and
installed an opcode table `table` with 256 entries, each naming one of the twelve modes,
then in every well-typed state `c` of that processor (a state with the attached kind of
bus, the installed table and the addrModeLookup of Create6502) the lookups of clock (the
entry of the opcode byte read at PC and the resolver of its mode) and of fetch (the
entry of the current opcode) succeed. -/
theorem full_table_lookups (b : DevBus) (table : List (Instruction Method))
    (c : MOS6502 Method)
    (hlen : table.length = 256)
    (hnames : ∀ instr ∈ table,
      instr.addrMode ∈ ["IMP", "IMM", "ZP0", "ZPX", "ZPY", "REL", "ABS", "ABX", "ABY",
        "IND", "IZX", "IZY"])
    (hc : c.WellTyped)
    (htable : c.opLookup = ({ Create6502.attach b with opLookup := table }).opLookup)
    (hmodes : c.addrModeLookup
      = ({ Create6502.attach b with opLookup := table }).addrModeLookup) :
    Create6502.opLookup = [] ∧
    Create6502.read Create6502.PC = none ∧
    Create6502.addrModeLookup.map Prod.fst =
      ["IMP", "IMM", "ZP0", "ZPX", "ZPY", "REL", "ABS", "ABX", "ABY", "IND", "IZX", "IZY"] ∧
    (∃ instr m, c.opLookup[c.read c.PC]? = some instr ∧
      c.addrModeLookup.lookup instr.addrMode = some m) ∧
    (∃ v c1, c.fetch = some (v, c1)) := by
  have htab : c.opLookup = table := htable
  have hmod : c.addrModeLookup = Create6502.addrModeLookup := hmodes
  refine ⟨rfl, rfl, rfl, ?_, ?_⟩
  · have hr : c.read c.PC < c.opLookup.length := by
      have := read_lt c hc c.PC
      rw [htab]; omega
    obtain ⟨m, hm⟩ :=
      Create6502_lookup _ (hnames _ (by rw [← htab]; exact List.getElem_mem hr))
    exact ⟨_, m, List.getElem?_eq_getElem hr, by rw [hmod]; exact hm⟩
  · have ho : c.opcode < c.opLookup.length := by
      have := hc.opcode
      rw [htab]; omega
    obtain ⟨M, hf, _⟩ := fetch_of_entry c ho
    exact ⟨M, _, hf⟩

end Cpu

namespace Cpu

variable {φ : Type}

theorem fullTableCpu_wellTyped : fullTableCpu.WellTyped where
  ram := fun _ => (by decide : (0 : Nat) < 256)
  A := by decide
  X := by decide
  Y := by decide
  Status := by decide
  SP := by decide
  PC := by decide
  fetched := by decide
  cycles := by decide
  absAddr := by decide
  relAddr := by decide
  opcode := by decide
  opCycles := by
    intro i hi
    simp only [fullTableCpu, List.mem_replicate] at hi
    rw [hi.2]
    decide

theorem fullTable_names :
    ∀ instr ∈ List.replicate 256
        ({ name := "ADC", op := .adc, addrMode := "ZP0", cycles := 3 } : Instruction Method),
      instr.addrMode ∈ ["IMP", "IMM", "ZP0", "ZPX", "ZPY", "REL", "ABS", "ABX", "ABY",
        "IND", "IZX", "IZY"] := by
  intro i hi
  simp only [List.mem_replicate] at hi
  rw [hi.2]
  decide

theorem fullTable_entry (x : Instruction Method) (op : Nat) (h : op < 256) :
    (List.replicate 256 x)[op]? = some x := by
  rw [List.getElem?_replicate]
  simp [h]

theorem fullTableCpu_fetch : fullTableCpu.fetch.map (fun p => p.1) = some 0 := by
  unfold MOS6502.fetch
  have h : fullTableCpu.opLookup[fullTableCpu.opcode]?
      = some { name := "ADC", op := .adc, addrMode := "ZP0", cycles := 3 } :=
    fullTable_entry _ 0 (by decide)
  rw [h]
  rfl

theorem fullTableNoBus_fetch : fullTableNoBus.fetch = none := by
  unfold NilBus6502.fetch
  have h : fullTableNoBus.opLookup[fullTableNoBus.opcode]?
      = some { name := "ADC", op := .adc, addrMode := "ZP0", cycles := 3 } :=
    fullTable_entry _ 0 (by decide)
  rw [h]
  rfl

/-- Witness for C17 as amended: the processor of Create6502 with the all-zero bus
attached and a 256-entry table of zero-page instructions installed; its fetch reads the
byte 0 at absAddr.  With the same table but no bus, fetch and clock still fail, at the
read through the nil pointer. -/
theorem full_table_lookups_witness :
    (List.replicate 256
      ({ name := "ADC", op := .adc, addrMode := "ZP0", cycles := 3 } :
        Instruction Method)).length = 256 ∧
    fullTableCpu.WellTyped ∧
    fullTableCpu.fetch.map (fun p => p.1) = some 0 ∧
    fullTableNoBus.fetch = none ∧
    (∀ run, fullTableNoBus.clock run = none) ∧
    (Create6502.opLookup = [] ∧
      Create6502.read Create6502.PC = none ∧
      Create6502.addrModeLookup.map Prod.fst =
        ["IMP", "IMM", "ZP0", "ZPX", "ZPY", "REL", "ABS", "ABX", "ABY", "IND", "IZX",
          "IZY"] ∧
      (∃ instr m, fullTableCpu.opLookup[fullTableCpu.read fullTableCpu.PC]? = some instr ∧
        fullTableCpu.addrModeLookup.lookup instr.addrMode = some m) ∧
      (∃ v c1, fullTableCpu.fetch = some (v, c1))) :=
  ⟨List.length_replicate _ _, fullTableCpu_wellTyped, fullTableCpu_fetch,
    fullTableNoBus_fetch, fun _ => rfl,
    full_table_lookups zeroBus
      (List.replicate 256 { name := "ADC", op := .adc, addrMode := "ZP0", cycles := 3 })
      fullTableCpu (List.length_replicate _ _) fullTable_names fullTableCpu_wellTyped
      rfl rfl⟩

/-- C18: the fetch contract.  When the current opcode has the table entry `instruction`:
if its addressing mode is IMM, fetch returns the stored `fetched` value and the
unchanged state; otherwise it returns the byte read from memory at absAddr and the state
with only `fetched` replaced by that byte.  In both cases fetch returns, and calling it
again on the state it left returns the same value and the same state. -/
theorem fetch_contract (c : MOS6502 φ) (instruction : Instruction φ)
    (h : c.opLookup[c.opcode]? = some instruction) :
    (instruction.addrMode = "IMM" → c.fetch = some (c.fetched, c)) ∧
    (instruction.addrMode ≠ "IMM" →
      c.fetch = some (c.read c.absAddr, { c with fetched := c.read c.absAddr })) ∧
    ∃ v c1, c.fetch = some (v, c1) ∧ c1.fetch = some (v, c1) := by
  have himm : instruction.addrMode = "IMM" → c.fetch = some (c.fetched, c) := by
    intro hm
    unfold MOS6502.fetch
    simp [h, hm]
  have hmem : instruction.addrMode ≠ "IMM" →
      c.fetch = some (c.read c.absAddr, { c with fetched := c.read c.absAddr }) := by
    intro hm
    unfold MOS6502.fetch
    simp [h, hm]
  refine ⟨himm, hmem, ?_⟩
  by_cases hm : instruction.addrMode = "IMM"
  · exact ⟨_, _, himm hm, himm hm⟩
  · refine ⟨_, _, hmem hm, ?_⟩
    unfold MOS6502.fetch
    simp only [h]
    simp [hm, MOS6502.read]

/-- Witness for C18 on the processor of TestAdc (immediate mode, fetched = 10). -/
theorem fetch_contract_witness :
    (immCpu 5 10 0).opLookup[(immCpu 5 10 0).opcode]?
      = some { name := "ADC", op := (), addrMode := "IMM", cycles := 1 } ∧
    (immCpu 5 10 0).fetch.map (fun p => p.1) = some 10 ∧
    (((({ name := "ADC", op := (), addrMode := "IMM", cycles := 1 } :
        Instruction Unit).addrMode = "IMM" →
      (immCpu 5 10 0).fetch = some ((immCpu 5 10 0).fetched, immCpu 5 10 0))) ∧
    ((({ name := "ADC", op := (), addrMode := "IMM", cycles := 1 } :
        Instruction Unit).addrMode ≠ "IMM" →
      (immCpu 5 10 0).fetch = some ((immCpu 5 10 0).read (immCpu 5 10 0).absAddr,
        { immCpu 5 10 0 with fetched := (immCpu 5 10 0).read (immCpu 5 10 0).absAddr }))) ∧
    ∃ v c1, (immCpu 5 10 0).fetch = some (v, c1) ∧ c1.fetch = some (v, c1)) :=
  ⟨rfl, by decide,
    fetch_contract (immCpu 5 10 0)
      { name := "ADC", op := (), addrMode := "IMM", cycles := 1 } rfl⟩

end Cpu

namespace Cpu

variable {φ : Type}

theorem flag_bit (c : MOS6502 φ) (hs : c.Status < 256) (i : Nat) (hi : i < 8)
    (cond : Bool) :
    ((c.SetFlag (2 ^ i) cond).GetFlag (2 ^ i) ≠ 0 ↔ cond = true) ∧
    (∀ j, j ≠ i → (c.SetFlag (2 ^ i) cond).Status.testBit j = c.Status.testBit j) ∧
    c.SetFlag (2 ^ i) cond = { c with Status := (c.SetFlag (2 ^ i) cond).Status } := by
  refine ⟨?_, ?_, SetFlag_eq c _ cond⟩
  · rw [GetFlag_ne_zero, SetFlag_testBit c i i cond hs hi]
    simp
  · intro j hj
    rw [SetFlag_testBit c i j cond hs hi]
    have : ¬ i = j := fun h => hj h.symm
    simp [this]

/-- C19: the flag accessors.  For every processor with an 8-bit status value, every
single-bit flag mask f = 2^i among C, Z, I, D, B, U, V, N (i = 0..7 in that order) and
every boolean cond: after SetFlag(f, cond), GetFlag(f) is nonzero if and only if cond is
true, every status bit j other than i has the value it had before, and no field other
than Status has changed. -/
theorem flag_accessors (c : MOS6502 φ) (hs : c.Status < 256) (f : Nat)
    (hf : f ∈ [C, Z, I, D, B, U, V, N]) (cond : Bool) :
    [C, Z, I, D, B, U, V, N] = [2 ^ 0, 2 ^ 1, 2 ^ 2, 2 ^ 3, 2 ^ 4, 2 ^ 5, 2 ^ 6, 2 ^ 7] ∧
    ∃ i, i < 8 ∧ f = 2 ^ i ∧
      ((c.SetFlag f cond).GetFlag f ≠ 0 ↔ cond = true) ∧
      (∀ j, j ≠ i → (c.SetFlag f cond).Status.testBit j = c.Status.testBit j) ∧
      c.SetFlag f cond = { c with Status := (c.SetFlag f cond).Status } := by
  refine ⟨rfl, ?_⟩
  simp only [List.mem_cons, List.mem_singleton, List.not_mem_nil, or_false] at hf
  rcases hf with h | h | h | h | h | h | h | h <;> subst h
  · exact ⟨0, by decide, rfl, flag_bit c hs 0 (by decide) cond⟩
  · exact ⟨1, by decide, rfl, flag_bit c hs 1 (by decide) cond⟩
  · exact ⟨2, by decide, rfl, flag_bit c hs 2 (by decide) cond⟩
  · exact ⟨3, by decide, rfl, flag_bit c hs 3 (by decide) cond⟩
  · exact ⟨4, by decide, rfl, flag_bit c hs 4 (by decide) cond⟩
  · exact ⟨5, by decide, rfl, flag_bit c hs 5 (by decide) cond⟩
  · exact ⟨6, by decide, rfl, flag_bit c hs 6 (by decide) cond⟩
  · exact ⟨7, by decide, rfl, flag_bit c hs 7 (by decide) cond⟩

/-- Witness for C19: setting and clearing the Overflow flag in the status value
0b10000001 gives 0b11000001 and 0b10000001. -/
theorem flag_accessors_witness :
    (immCpu 0 0 0x81).Status < 256 ∧
    V ∈ [C, Z, I, D, B, U, V, N] ∧
    ((immCpu 0 0 0x81).SetFlag V true).Status = 0xC1 ∧
    ((immCpu 0 0 0xC1).SetFlag V false).Status = 0x81 ∧
    ([C, Z, I, D, B, U, V, N] = [2 ^ 0, 2 ^ 1, 2 ^ 2, 2 ^ 3, 2 ^ 4, 2 ^ 5, 2 ^ 6, 2 ^ 7] ∧
    ∃ i, i < 8 ∧ V = 2 ^ i ∧
      (((immCpu 0 0 0x81).SetFlag V true).GetFlag V ≠ 0 ↔ true = true) ∧
      (∀ j, j ≠ i →
        ((immCpu 0 0 0x81).SetFlag V true).Status.testBit j
          = (immCpu 0 0 0x81).Status.testBit j) ∧
      (immCpu 0 0 0x81).SetFlag V true =
        { immCpu 0 0 0x81 with Status := ((immCpu 0 0 0x81).SetFlag V true).Status }) :=
  ⟨by decide, by decide, by decide, by decide,
    flag_accessors (immCpu 0 0 0x81) (by decide) V (by decide) true⟩

theorem addCore_cycles (c0 : MOS6502 φ) (mem : Nat) : (addCore c0 mem).cycles = c0.cycles := by
  rw [addCore_eq]

/-- Every method of the repository that can be stored in the tables leaves the cycle
counter as it found it: the twelve resolvers, adc and sbc. -/
theorem Method_run_cycles (m : Method) (s s' : MOS6502 Method) (r : Nat)
    (h : m.run s = some (r, s')) : s'.cycles = s.cycles := by
  cases m
  case adc =>
    simp only [Method.run] at h
    cases hf : s.fetch with
    | none => simp [MOS6502.adc, hf] at h
    | some p =>
      obtain ⟨M, c0⟩ := p
      rw [adc_eq_addCore s M c0 hf] at h
      have h2 := fetch_result s M c0 hf
      simp only [Option.some.injEq, Prod.mk.injEq] at h
      rw [← h.2, addCore_cycles, h2]
  case sbc =>
    simp only [Method.run] at h
    cases hf : s.fetch with
    | none => simp [MOS6502.sbc, hf] at h
    | some p =>
      obtain ⟨M, c0⟩ := p
      rw [sbc_eq_addCore s M c0 hf] at h
      have h2 := fetch_result s M c0 hf
      simp only [Option.some.injEq, Prod.mk.injEq] at h
      rw [← h.2, addCore_cycles, h2]
  case rel =>
    simp only [Method.run, rel_eq, Option.some.injEq, Prod.mk.injEq] at h
    rw [← h.2]
  case abX =>
    simp only [Method.run, abX_eq, Option.some.injEq, Prod.mk.injEq] at h
    rw [← h.2]
  case abY =>
    simp only [Method.run, abY_eq, Option.some.injEq, Prod.mk.injEq] at h
    rw [← h.2]
  case ind =>
    simp only [Method.run, ind_eq, Option.some.injEq, Prod.mk.injEq] at h
    rw [← h.2]
  case izY =>
    simp only [Method.run, izY_eq, Option.some.injEq, Prod.mk.injEq] at h
    rw [← h.2]
  all_goals
    simp only [Method.run, Option.some.injEq] at h
    rw [← congrArg (fun p => p.2.cycles) h]
    rfl

end Cpu

/-! ## Signed overflow -/

namespace Cpu

variable {φ : Type}

/-- The Overflow flag left by the shared tail of adc and sbc, in signed terms: with the
accumulator and the operand `mem` read as signed 8-bit integers, it is set exactly when
their sum plus the carry-in leaves [-128, 127]. -/
theorem addCore_signed_overflow (c0 : MOS6502 φ) (mem : Nat) (hA : c0.A < 256)
    (hm : mem < 256) (hs : c0.Status < 256) (sA sM : Int)
    (hsA : sA = if c0.A < 128 then (c0.A : Int) else (c0.A : Int) - 256)
    (hsM : sM = if mem < 128 then (mem : Int) else (mem : Int) - 256) :
    (addCore c0 mem).GetFlag V ≠ 0 ↔
      (sA + sM + (c0.GetFlag C : Int) < -128 ∨ 127 < sA + sM + (c0.GetFlag C : Int)) := by
  have hc := GetFlag_C c0
  have hlt : c0.Status % 2 < 2 := Nat.mod_lt _ (by decide)
  rw [addCore_flagV c0 mem hs, addCore_A]
  split_ifs at hsA hsM <;> omega

/-- C21: the Overflow flag is true signed overflow for both arithmetic operations.  With
sA and sM the accumulator and the fetched operand read as signed 8-bit integers (both in
[-128, 127]) and c the incoming Carry (0 or 1): adc and sbc both return; after adc the
Overflow flag is set iff sA + sM + c lies outside [-128, 127], and after sbc it is set
iff sA - sM - (1 - c) lies outside [-128, 127]. -/
theorem overflow_is_signed_overflow (c : MOS6502 φ) (hc : c.WellTyped) (M : Nat)
    (c0 : MOS6502 φ) (hf : c.fetch = some (M, c0)) (sA sM : Int)
    (hsA : sA = if c.A < 128 then (c.A : Int) else (c.A : Int) - 256)
    (hsM : sM = if M < 128 then (M : Int) else (M : Int) - 256) :
    (c.GetFlag C = 0 ∨ c.GetFlag C = 1) ∧
    (-128 ≤ sA ∧ sA ≤ 127 ∧ -128 ≤ sM ∧ sM ≤ 127) ∧
    ∃ ca cs, c.adc = some (1, ca) ∧ c.sbc = some (1, cs) ∧
      (ca.GetFlag V ≠ 0 ↔
        (sA + sM + (c.GetFlag C : Int) < -128 ∨ 127 < sA + sM + (c.GetFlag C : Int))) ∧
      (cs.GetFlag V ≠ 0 ↔
        (sA - sM - (1 - (c.GetFlag C : Int)) < -128 ∨
          127 < sA - sM - (1 - (c.GetFlag C : Int)))) := by
  obtain ⟨hM, hc0⟩ := fetch_operand_lt c hc M c0 hf
  have hA := hc.A
  have hS := hc.Status
  have hg := GetFlag_C c
  have hx := xor_FF M hM
  have e0 : (0x00ff : Nat) = 0xFF := rfl
  have hfe : c0.fetched = M := by rw [hc0]
  have hA0 : c0.A = c.A := by rw [hc0]
  have hS0 : c0.Status = c.Status := by rw [hc0]
  have hC0 : c0.GetFlag C = c.GetFlag C := by
    unfold MOS6502.GetFlag; rw [hS0]
  have hadc := adc_eq_addCore c M c0 hf
  have hsbc := sbc_eq_addCore c M c0 hf
  rw [hfe] at hadc hsbc
  rw [e0, hx] at hsbc
  refine ⟨by omega, by split_ifs at hsA hsM <;> omega, _, _, hadc, hsbc, ?_, ?_⟩
  · rw [← hC0]
    exact addCore_signed_overflow c0 M (by omega) hM (by omega) sA sM (by rw [hA0]; exact hsA)
      hsM
  · have h := addCore_signed_overflow c0 (255 - M) (by omega) (by omega) (by omega) sA
      (if 255 - M < 128 then ((255 - M : Nat) : Int) else ((255 - M : Nat) : Int) - 256)
      (by rw [hA0]; exact hsA) rfl
    rw [h, hC0]
    split_ifs at hsM ⊢ <;> omega

/-- Witness for C21 on the test vectors "overflow/negative" (127 + 10 sets V: status
0b11000000) and "signed overflow" (208 - 112, that is -48 - 112, with Carry set, sets V:
status 0b01000001). -/
theorem overflow_is_signed_overflow_witness :
    (immCpu 208 112 1).WellTyped ∧
    (immCpu 208 112 1).fetch = some (112, immCpu 208 112 1) ∧
    ((immCpu 127 10 0).adc.map fun p => (p.2.A, p.2.Status)) = some (137, 0xC0) ∧
    ((immCpu 208 112 1).sbc.map fun p => (p.2.A, p.2.Status)) = some (96, 0x41) ∧
    (((immCpu 208 112 1).GetFlag C = 0 ∨ (immCpu 208 112 1).GetFlag C = 1) ∧
    (-128 ≤ (-48 : Int) ∧ (-48 : Int) ≤ 127 ∧ -128 ≤ (112 : Int) ∧ (112 : Int) ≤ 127) ∧
    ∃ ca cs, (immCpu 208 112 1).adc = some (1, ca) ∧ (immCpu 208 112 1).sbc = some (1, cs) ∧
      (ca.GetFlag V ≠ 0 ↔
        ((-48 : Int) + 112 + ((immCpu 208 112 1).GetFlag C : Int) < -128 ∨
          127 < (-48 : Int) + 112 + ((immCpu 208 112 1).GetFlag C : Int))) ∧
      (cs.GetFlag V ≠ 0 ↔
        ((-48 : Int) - 112 - (1 - ((immCpu 208 112 1).GetFlag C : Int)) < -128 ∨
          127 < (-48 : Int) - 112 - (1 - ((immCpu 208 112 1).GetFlag C : Int))))) :=
  ⟨immCpu_wellTyped 208 112 1 (by decide) (by decide) (by decide), rfl, by decide,
    by decide,
    overflow_is_signed_overflow (immCpu 208 112 1)
      (immCpu_wellTyped 208 112 1 (by decide) (by decide) (by decide)) 112 _ rfl
      (-48) 112 (by decide) (by decide)⟩

end Cpu

/-! ## The bus -/

namespace Cpu

/-- Below the last address DevBus behaves as RAM: for every address a < 0xFFFF and every
data value d, Read(a) after Write(a, d) returns d, and Read at any other address returns
what it returned before the Write.  At a = 0xFFFF the Write leaves the bus as it was and
Read returns 0. -/
theorem DevBus_read_write (b : DevBus) (a d : Nat) :
    (a < 0xFFFF → (b.Write a d).Read a false = d) ∧
    (∀ a', a' ≠ a → (b.Write a d).Read a' false = b.Read a' false) ∧
    b.Write 0xFFFF d = b ∧ b.Read 0xFFFF false = 0 := by
  refine ⟨?_, ?_, ?_, ?_⟩
  · intro h
    simp [DevBus.Write, DevBus.Read, h]
  · intro a' hne
    unfold DevBus.Write DevBus.Read
    by_cases h : 0 ≤ a ∧ a < 0xFFFF
    · simp only [h, and_self, if_true]
      by_cases h' : a' < 0xFFFF
      · simp [h', hne]
      · simp [h']
    · simp only [h, if_false]
  · simp [DevBus.Write]
  · simp [DevBus.Read]

/-- C22 at the failing input: on the all-zero bus, Write(0xFFFF, 0x42) stores nothing
(cell 0xFFFF of the 64k array still holds 0) and the Read(0xFFFF) that follows returns 0,
not 0x42; one address lower, Write(0xFFFE, 0x42) followed by Read(0xFFFE) returns 0x42. -/
theorem DevBus_last_cell_at_input :
    (zeroBus.Write 0xFFFF 0x42).Read 0xFFFF false = 0 ∧
    (zeroBus.Write 0xFFFF 0x42).ram 0xFFFF = 0 ∧
    (zeroBus.Write 0xFFFE 0x42).Read 0xFFFE false = 0x42 := by
  decide

end Cpu
